import Mathlib

/-!
Verification development for a small SQL database engine
(query parser, storage engine, query executor).

The Python source is shallowly embedded: Python dictionaries become
insertion-ordered association lists, Python exceptions become
`Except String`, and mutation of the engine state is explicit state
passing.  Machine floats carry no arithmetic anywhere in the source
(they are only parsed from decimal literals, compared, stringified and
truncated), so the `Float` variant of `Value` is embedded as an exact
decimal `m / 10^e`; IEEE rounding of extremely long literals is out of
scope.
-/

set_option maxRecDepth 100000

deriving instance DecidableEq for Except

namespace Rdbms

/-- A Python runtime value as used by the engine: `None`, `int`,
`float` (decimal literal `m / 10^e`), `bool`, or `str`. -/
inductive Value where
  | null
  | int (i : Int)
  | float (m : Int) (e : Nat)
  | bool (b : Bool)
  | text (s : String)
deriving DecidableEq, Repr

namespace Value

/-- Numeric view: Python treats `bool`, `int` and `float` as one
numeric tower; `None` and `str` are not numeric. -/
def numVal : Value → Option ℚ
  | .int i => some (i : ℚ)
  | .bool b => some (if b then 1 else 0)
  | .float m e => some ((m : ℚ) / ((10 : ℚ) ^ e))
  | _ => none

/-- The equality class of a value under Python `==`: `None` is its own
class, `bool`/`int`/`float` compare by numeric value, strings by
text; values of different classes are never equal. -/
inductive PyKey where
  | none
  | num (q : ℚ)
  | str (s : String)
deriving DecidableEq

/-- Canonical `==`-key of a value. -/
def key : Value → PyKey
  | .null => .none
  | .int i => .num (i : ℚ)
  | .bool b => .num (if b then 1 else 0)
  | .float m e => .num ((m : ℚ) / ((10 : ℚ) ^ e))
  | .text s => .str s

/-- Python `==` on the values the engine manipulates: `None` equals only
`None`, numerics compare by value across `bool`/`int`/`float`, strings
compare as strings, and cross-kind comparisons are `False`. -/
def pyEq (a b : Value) : Bool := a.key = b.key

/-- Python truthiness: `None`, `0`, `0.0`, `False` and `""` are falsy. -/
def pyTruthy : Value → Bool
  | .null => false
  | .int i => i ≠ 0
  | .float m _ => m ≠ 0
  | .bool b => b
  | .text s => s ≠ ""

/-- Lexicographic comparison of strings by code point
(Python `str` ordering). -/
def lexCmp : List Char → List Char → Ordering
  | [], [] => .eq
  | [], _ :: _ => .lt
  | _ :: _, [] => .gt
  | a :: as, b :: bs =>
    if a.val < b.val then .lt
    else if b.val < a.val then .gt
    else lexCmp as bs

/-- Python ordering comparison (`<`, `<=`, `>`, `>=`): defined between
numerics and between strings; any other pair raises `TypeError`,
modelled as `none`. -/
def pyCmp (a b : Value) : Option Ordering :=
  match a, b with
  | .text s, .text t => some (lexCmp s.toList t.toList)
  | a, b =>
    match a.numVal, b.numVal with
    | some x, some y => some (compare x y)
    | _, _ => none

/-- Render the decimal float `m / 10^e` the way Python `str` renders the
corresponding literal (parsing normalises trailing zeros away). -/
def floatStr (m : Int) (e : Nat) : String :=
  if e = 0 then toString m ++ ".0"
  else
    let sign := if m < 0 then "-" else ""
    let digits := toString m.natAbs
    let digits := if digits.length ≤ e then
        String.mk (List.replicate (e + 1 - digits.length) '0') ++ digits
      else digits
    let ip := digits.dropRight e
    let fp := digits.takeRight e
    sign ++ ip ++ "." ++ fp

/-- Python `str()` of a value. -/
def pyStr : Value → String
  | .null => "None"
  | .int i => toString i
  | .float m e => floatStr m e
  | .bool b => if b then "True" else "False"
  | .text s => s

end Value

/-! ### Insertion-ordered dictionaries

Python `dict`s preserve insertion order; setting an existing key keeps
its position.  Key lookup uses Python `==`, supplied as an explicit
equality test. -/

section Dict

variable {α : Type} {β : Type} (eq : α → α → Bool)

/-- `d[k]` lookup, `none` when absent (Python `dict.get`). -/
def dGet : List (α × β) → α → Option β
  | [], _ => none
  | (k', v) :: rest, k => if eq k' k then some v else dGet rest k

/-- Python `k in d`. -/
def dHas (d : List (α × β)) (k : α) : Bool := (dGet eq d k).isSome

/-- `d[k] = v`: replace in place if the key exists, else append. -/
def dSet : List (α × β) → α → β → List (α × β)
  | [], k, v => [(k, v)]
  | (k', v') :: rest, k, v =>
    if eq k' k then (k', v) :: rest else (k', v') :: dSet rest k v

/-- Python `del d[k]` (no effect when the key is absent; the source
always guards deletion with a containment check). -/
def dDel : List (α × β) → α → List (α × β)
  | [], _ => []
  | (k', v') :: rest, k =>
    if eq k' k then rest else (k', v') :: dDel rest k

end Dict

/-- Keys of a dictionary, in order. -/
def dKeys {α β : Type} (d : List (α × β)) : List α := d.map Prod.fst

/-- A row: Python dict from column name to value
(including the internal `_row_id`). -/
abbrev Row := List (String × Value)

@[simp] def strEq (a b : String) : Bool := a == b

/-- `row.get(col)` -/
def rowGet (r : Row) (k : String) : Option Value := dGet strEq r k

/-- Python `str.startswith`. -/
def pyStartsWith (s pre : String) : Bool := pre.toList.isPrefixOf s.toList

/-- Index for one column: Python dict from value to row ordinal;
key equality is Python `==`. -/
abbrev IndexMap := List (Value × Nat)

/-! ### String utilities mirroring Python's `str` methods and `re` usage -/

/-- Python `\s` (the engine's inputs only use ASCII whitespace). -/
def isWs (c : Char) : Bool :=
  c = ' ' ∨ c = '\t' ∨ c = '\n' ∨ c = '\r' ∨ c = '\x0b' ∨ c = '\x0c'

/-- Python `\w` (ASCII range; the statements the engine accepts use
ASCII identifiers). -/
def isWordChar (c : Char) : Bool :=
  c.isAlpha ∨ c.isDigit ∨ c = '_'

def pyStripL (l : List Char) : List Char := l.dropWhile isWs

/-- Python `str.strip()`. -/
def pyStrip (l : List Char) : List Char :=
  ((pyStripL l).reverse.dropWhile isWs).reverse

def toUpperL (l : List Char) : List Char := l.map Char.toUpper

def toLowerL (l : List Char) : List Char := l.map Char.toLower

/-- First index at which `pat` occurs as a contiguous sublist
(Python `pat in s` / `s.split(pat, 1)`). -/
def findSub : List Char → List Char → Option Nat
  | [], pat => if pat.isPrefixOf ([] : List Char) then some 0 else none
  | c :: rest, pat =>
    if pat.isPrefixOf (c :: rest) then some 0
    else (findSub rest pat).map (· + 1)

/-- Python `int(str)`: strip whitespace, optional sign, nonempty ASCII
digit run.  (Python's underscore separators and non-ASCII digits are
outside the dialect and not modelled.) -/
def pyIntParse (l : List Char) : Option Int :=
  let l := pyStrip l
  let (neg, l) := match l with
    | '-' :: rest => (true, rest)
    | '+' :: rest => (false, rest)
    | l => (false, l)
  if l ≠ [] ∧ l.all Char.isDigit then
    let n := l.foldl (fun a c => a * 10 + (c.toNat - '0'.toNat)) 0
    some (if neg then -(n : Int) else (n : Int))
  else none

/-- Strip trailing zeros of the fractional part of a decimal
`m / 10^e` (so `1.50` and `1.5` denote the same Python float and print
identically). -/
def normFloat : Int → Nat → Int × Nat
  | m, 0 => (m, 0)
  | m, e + 1 => if m % 10 = 0 then normFloat (m / 10) e else (m, e + 1)

/-- Python `float(str)` restricted to plain decimal forms
`[ws] [sign] (digits [. digits] | . digits) [ws]`.  Exponent, `inf` and
`nan` forms never appear in the engine's dialect and are not modelled. -/
def pyFloatParse (l : List Char) : Option (Int × Nat) :=
  let l := pyStrip l
  let (neg, l) := match l with
    | '-' :: rest => (true, rest)
    | '+' :: rest => (false, rest)
    | l => (false, l)
  let ip := l.takeWhile Char.isDigit
  let rest := l.dropWhile Char.isDigit
  match rest with
  | [] =>
    if ip ≠ [] then
      let n := ip.foldl (fun a c => a * 10 + (c.toNat - '0'.toNat)) 0
      some (if neg then -(n : Int) else (n : Int), 0)
    else none
  | '.' :: fp =>
    if fp.all Char.isDigit ∧ (ip ≠ [] ∨ fp ≠ []) then
      let n := (ip ++ fp).foldl (fun a c => a * 10 + (c.toNat - '0'.toNat)) 0
      let m : Int := if neg then -(n : Int) else (n : Int)
      some (normFloat m fp.length)
    else none
  | _ => none

/-! ### Query parser -/

/-- One WHERE condition as the parser stores it: a plain literal
(implicit equality) or a dict of operator → literal. -/
inductive Cond where
  | lit (v : Value)
  | ops (l : List (String × Value))
deriving DecidableEq, Repr

/-- A parsed WHERE clause: dict from column name to condition. -/
abbrev WhereClause := List (String × Cond)

/-- `QueryParser._parse_value`. -/
def parseValue (s : List Char) : Value :=
  let s := pyStrip s
  if toUpperL s = "NULL".toList then .null
  else if (s.head? = some '\'' ∧ s.getLast? = some '\'') ∨
          (s.head? = some '"' ∧ s.getLast? = some '"') then
    .text (String.mk ((s.drop 1).dropLast))
  else if toUpperL s = "TRUE".toList then .bool true
  else if toUpperL s = "FALSE".toList then .bool false
  else if (findSub s ['.']).isSome then
    match pyFloatParse s with
    | some (m, e) => .float m e
    | none => .text (String.mk s)
  else
    match pyIntParse s with
    | some i => .int i
    | none => .text (String.mk s)

/-- State of `QueryParser._split_by_comma`'s character scan. -/
structure SplitState where
  parts : List (List Char)
  current : List Char
  inQuotes : Bool
  quoteChar : Option Char
  parenDepth : Int
deriving Repr

/-- `QueryParser._split_by_comma`: split on commas, respecting quoted
strings (both quote kinds) and balanced parentheses; each part is
stripped, and a final all-whitespace part is dropped. -/
def splitByComma (l : List Char) : List (List Char) :=
  let st := l.foldl (fun (st : SplitState) c =>
    if (c = '"' ∨ c = '\'') ∧ ¬ st.inQuotes then
      { st with inQuotes := true, quoteChar := some c,
                current := st.current ++ [c] }
    else if some c = st.quoteChar ∧ st.inQuotes then
      { st with inQuotes := false, quoteChar := none,
                current := st.current ++ [c] }
    else if c = '(' ∧ ¬ st.inQuotes then
      { st with parenDepth := st.parenDepth + 1, current := st.current ++ [c] }
    else if c = ')' ∧ ¬ st.inQuotes then
      { st with parenDepth := st.parenDepth - 1, current := st.current ++ [c] }
    else if c = ',' ∧ ¬ st.inQuotes ∧ st.parenDepth = 0 then
      { st with parts := st.parts ++ [pyStrip st.current], current := [] }
    else
      { st with current := st.current ++ [c] })
    ⟨[], [], false, none, 0⟩
  if pyStrip st.current ≠ [] then st.parts ++ [pyStrip st.current] else st.parts

/-- Try to match the separator regex `\s+AND\s+` (case-insensitive) at
the head of `l`; on success return the remainder. -/
def tryAndSep (l : List Char) : Option (List Char) :=
  let ws1 := l.takeWhile isWs
  let rest := l.dropWhile isWs
  if ws1 = [] then none
  else match rest with
    | a :: n :: d :: rest' =>
      if a.toUpper = 'A' ∧ n.toUpper = 'N' ∧ d.toUpper = 'D' ∧
         (rest'.takeWhile isWs) ≠ [] then
        some (rest'.dropWhile isWs)
      else none
    | _ => none

/-- `re.split(r'\s+AND\s+', s, flags=re.IGNORECASE)`: leftmost,
non-overlapping matches, both whitespace runs greedy. -/
def splitOnAndGo : Nat → List Char → List Char → List (List Char)
  | 0, cur, _ => [cur.reverse]
  | _ + 1, cur, [] => [cur.reverse]
  | fuel + 1, cur, c :: rest =>
    match tryAndSep (c :: rest) with
    | some rest' => cur.reverse :: splitOnAndGo fuel [] rest'
    | none => splitOnAndGo fuel (c :: cur) rest

def splitOnAnd (l : List Char) : List (List Char) :=
  splitOnAndGo l.length [] l

/-- The operator list scanned over each conjunct, in source order
(longest match first). -/
def opList : List (List Char) :=
  [['>', '='], ['<', '='], ['!', '='], ['='], ['>'], ['<']]

/-- Inner operator scan of `QueryParser._parse_where_clause`: the first
operator of the list occurring anywhere in the (stripped) part splits
it once; a part with no operator contributes nothing. -/
def parseWhereScan (conditions : WhereClause) (part : List Char) :
    List (List Char) → WhereClause
  | [] => conditions
  | op :: more =>
    match findSub part op with
    | some i =>
      let colName := String.mk (pyStrip (part.take i))
      let v := parseValue (pyStrip (part.drop (i + op.length)))
      if op = ['='] then dSet strEq conditions colName (.lit v)
      else dSet strEq conditions colName (.ops [(String.mk op, v)])
    | none => parseWhereScan conditions part more

/-- Per-conjunct step of `QueryParser._parse_where_clause`. -/
def parseWherePart (conditions : WhereClause) (part : List Char) : WhereClause :=
  parseWhereScan conditions (pyStrip part) opList

/-- `QueryParser._parse_where_clause`. -/
def parseWhereClause (l : List Char) : WhereClause :=
  (splitOnAnd l).foldl parseWherePart []

/-! ### Statement parsers

Each Python `re.match` is embedded by a scanner that resolves the
pattern the way the backtracking engine does: literal keywords are
case-insensitive, `\s+` and `\w+` runs are maximal (their continuations
start with a disjoint character class, so no backtracking arises there),
a lazy `(.*?)` takes the leftmost split whose continuation matches, a
greedy `(.*)\)` reaches to the last closing parenthesis, and a trailing
`(?:...)?` prefers presence over absence. -/

/-- Case-insensitive literal keyword match; returns the remainder. -/
def matchCI : List Char → List Char → Option (List Char)
  | [], l => some l
  | _ :: _, [] => none
  | k :: ks, c :: cs => if c.toUpper = k.toUpper then matchCI ks cs else none

/-- `\s+`: at least one whitespace character, consumed maximally. -/
def wsPlus (l : List Char) : Option (List Char) :=
  if l.takeWhile isWs = [] then none else some (l.dropWhile isWs)

/-- `\s*`. -/
def wsStar (l : List Char) : List Char := l.dropWhile isWs

/-- `(\w+)`: a maximal nonempty word-character run. -/
def word1 (l : List Char) : Option (List Char × List Char) :=
  let w := l.takeWhile isWordChar
  if w = [] then none else some (w, l.dropWhile isWordChar)

/-- Python `str.split()`: tokens separated by whitespace runs. -/
def pySplitWsGo : Nat → List Char → List (List Char)
  | 0, _ => []
  | fuel + 1, l =>
    match l.dropWhile isWs with
    | [] => []
    | c :: rest =>
      ((c :: rest).takeWhile (fun x => ¬ isWs x)) ::
        pySplitWsGo fuel ((c :: rest).dropWhile (fun x => ¬ isWs x))

def pySplitWs (l : List Char) : List (List Char) := pySplitWsGo l.length l

/-- Content up to the last `')'` (greedy `(.*)\)`); `none` when no
closing parenthesis exists. -/
def upToLastClose (l : List Char) : Option (List Char) :=
  match (l.reverse.dropWhile (fun c => c ≠ ')')) with
  | [] => none
  | _ :: kept => some kept.reverse

/-- The trailing `(?:\s+WHERE\s+(.*))?` of the SELECT/DELETE patterns:
present only when whitespace, `WHERE` and more whitespace follow
immediately; the captured group is everything after. -/
def tryWhereSep (l : List Char) : Option (List Char) := do
  let r ← wsPlus l
  let r ← matchCI "WHERE".toList r
  wsPlus r

/-- A column definition as stored in the schema dicts. -/
structure ColDef where
  type : String
  not_null : Bool
  primary_key : Bool
  unique : Bool
deriving DecidableEq, Repr

/-- Parsed query plan (the dicts `QueryParser.parse` returns,
discriminated by their `type` field). -/
inductive Plan where
  | createTable (table : String) (columns : List (String × ColDef))
  | insert (table : String) (insCols : Option (List String)) (values : List Value)
  | select (table : String) (columns : List String) (whereC : Option WhereClause)
  | selectJoin (table1 table2 : String) (joinLeft joinRight : String)
      (columns : List String) (whereC : Option WhereClause)
  | update (table : String) (updates : List (String × Value))
      (whereC : Option WhereClause)
  | delete (table : String) (whereC : WhereClause)
  | showTables
  | describe (table : String)
deriving DecidableEq, Repr

/-- `QueryParser._parse_column_definitions`. -/
def parseColumnDefinitions (l : List Char) :
    Except String (List (String × ColDef)) :=
  (splitByComma l).foldlM (fun cols colDef => do
    let colDef := pyStrip colDef
    match pySplitWs colDef with
    | colName :: colType :: restParts =>
      let remaining := toUpperL (List.intercalate [' '] restParts)
      let pk := (findSub remaining "PRIMARY KEY".toList).isSome
      let uniq := (findSub remaining "UNIQUE".toList).isSome ∧ ¬ pk
      let notNull := pk ∨ (findSub remaining "NOT NULL".toList).isSome
      pure (dSet strEq cols (String.mk colName)
        ⟨String.mk colType, notNull, pk, uniq⟩)
    | _ => throw s!"Invalid column definition: {String.mk colDef}") []

/-- The scanner for `CREATE\s+TABLE\s+(\w+)\s*\((.*)\)`
(`QueryParser._parse_create_table`). -/
def createTableScan (q : List Char) : Option (List Char × List Char) := do
  let r ← matchCI "CREATE".toList q
  let r ← wsPlus r
  let r ← matchCI "TABLE".toList r
  let r ← wsPlus r
  let (w, r) ← word1 r
  match wsStar r with
  | '(' :: r => do
    let content ← upToLastClose r
    pure (w, content)
  | _ => none

def parseCreateTable (q : List Char) : Except String Plan :=
  match createTableScan q with
  | none => throw "Invalid CREATE TABLE syntax"
  | some (w, content) => do
    let cols ← parseColumnDefinitions content
    pure (.createTable (String.mk w) cols)

/-- `QueryParser._parse_values`. -/
def parseValues (l : List Char) : List Value :=
  (splitByComma l).map (fun p => parseValue (pyStrip p))

/-- Scanner for the lazy `(.*?)\)\s+VALUES\s*\((.*)\)` tail of INSERT
pattern 2: the first `')'` whose continuation matches wins. -/
def insertP2Scan : Nat → List Char → List Char →
    Option (List Char × List Char)
  | 0, _, _ => none
  | _ + 1, _, [] => none
  | fuel + 1, cur, c :: rest =>
    let cont : Option (List Char) :=
      if c = ')' then do
        let r ← wsPlus rest
        let r ← matchCI "VALUES".toList r
        match wsStar r with
        | '(' :: r => upToLastClose r
        | _ => none
      else none
    match cont with
    | some vals => some (cur.reverse, vals)
    | none => insertP2Scan fuel (c :: cur) rest

/-- The common `INSERT\s+INTO\s+(\w+)` prefix of both INSERT
patterns. -/
def insertPreScan (q : List Char) : Option (List Char × List Char) := do
  let r ← matchCI "INSERT".toList q
  let r ← wsPlus r
  let r ← matchCI "INTO".toList r
  let r ← wsPlus r
  word1 r

/-- The `\s+VALUES\s*\((.*)\)` tail of INSERT pattern 1. -/
def insertP1Scan (afterName : List Char) : Option (List Char) := do
  let r ← wsPlus afterName
  let r ← matchCI "VALUES".toList r
  match wsStar r with
  | '(' :: r => upToLastClose r
  | _ => none

/-- `QueryParser._parse_insert`: pattern 1
`INSERT\s+INTO\s+(\w+)\s+VALUES\s*\((.*)\)`, then pattern 2
`INSERT\s+INTO\s+(\w+)\s*\((.*?)\)\s+VALUES\s*\((.*)\)`. -/
def parseInsert (q : List Char) : Except String Plan :=
  match insertPreScan q with
  | none => throw "Invalid INSERT syntax"
  | some (w, afterName) =>
    match insertP1Scan afterName with
    | some valsStr => pure (.insert (String.mk w) none (parseValues valsStr))
    | none =>
      match (match wsStar afterName with
             | '(' :: r => insertP2Scan r.length [] r
             | _ => none) with
      | some (colsStr, valsStr) =>
        let cols := (colsStr.splitOn ',').map
          (fun c => String.mk (pyStrip c))
        pure (.insert (String.mk w) (some cols) (parseValues valsStr))
      | none => throw "Invalid INSERT syntax"

/-- Candidate test for the lazy `(.*?)\s+FROM\s+(\w+)` of the basic
SELECT pattern. -/
def tryFromSep (l : List Char) : Option (List Char) := do
  let r ← wsPlus l
  let r ← matchCI "FROM".toList r
  let r ← wsPlus r
  match r with
  | c :: _ => if isWordChar c then some r else none
  | [] => none

/-- Leftmost split of `(.*?)\s+FROM\s+…` for the basic SELECT pattern. -/
def selectFromScan : Nat → List Char → List Char →
    Option (List Char × List Char)
  | 0, _, _ => none
  | _ + 1, _, [] => none
  | fuel + 1, cur, c :: rest =>
    match tryFromSep (c :: rest) with
    | some r => some (cur.reverse, r)
    | none => selectFromScan fuel (c :: cur) rest

/-- Shared projection-list handling of both SELECT parsers. -/
def parseSelectColumns (colsRaw : List Char) : List String :=
  let colsStr := pyStrip colsRaw
  if colsStr = ['*'] then ["*"]
  else (colsStr.splitOn ',').map (fun c => String.mk (pyStrip c))

/-- Scanner for the basic SELECT pattern. -/
def selectBasicScan (q : List Char) :
    Option (List Char × List Char × Option (List Char)) := do
  let r ← matchCI "SELECT".toList q
  let r ← wsPlus r
  let (cols, r) ← selectFromScan r.length [] r
  let (w, r) ← word1 r
  pure (cols, w, tryWhereSep r)

/-- `QueryParser._parse_select` (basic form):
`SELECT\s+(.*?)\s+FROM\s+(\w+)(?:\s+WHERE\s+(.*))?`. -/
def parseSelectBasic (q : List Char) : Except String Plan :=
  match selectBasicScan q with
  | none => throw "Invalid SELECT syntax"
  | some (colsRaw, w, whereStr) =>
    let whereC := match whereStr with
      | some ws => if ws ≠ [] then some (parseWhereClause ws) else none
      | none => none
    pure (.select (String.mk w) (parseSelectColumns colsRaw) whereC)

/-- Candidate test for the lazy columns group of the JOIN pattern: the
whole `\s+FROM\s+(\w+)\s+JOIN\s+(\w+)\s+ON\s+` continuation must
match. -/
def tryFromJoinSep (l : List Char) :
    Option (List Char × List Char × List Char) := do
  let r ← wsPlus l
  let r ← matchCI "FROM".toList r
  let r ← wsPlus r
  let (w1, r) ← word1 r
  let r ← wsPlus r
  let r ← matchCI "JOIN".toList r
  let r ← wsPlus r
  let (w2, r) ← word1 r
  let r ← wsPlus r
  let r ← matchCI "ON".toList r
  let r ← wsPlus r
  pure (w1, w2, r)

/-- Leftmost split for the JOIN pattern's columns group. -/
def joinFromScan : Nat → List Char → List Char →
    Option (List Char × List Char × List Char × List Char)
  | 0, _, _ => none
  | _ + 1, _, [] => none
  | fuel + 1, cur, c :: rest =>
    match tryFromJoinSep (c :: rest) with
    | some (w1, w2, r) => some (cur.reverse, w1, w2, r)
    | none => joinFromScan fuel (c :: cur) rest

/-- Resolution of `ON\s+(.*?)(?:\s+WHERE\s+(.*))?$`: the ON text is the
shortest prefix after which either ` WHERE ` follows or the input
ends. -/
def onScan : Nat → List Char → List Char →
    List Char × Option (List Char)
  | 0, cur, _ => (cur.reverse, none)
  | _ + 1, cur, [] => (cur.reverse, none)
  | fuel + 1, cur, c :: rest =>
    match tryWhereSep (c :: rest) with
    | some r => (cur.reverse, some r)
    | none => onScan fuel (c :: cur) rest

/-- `QueryParser._parse_join_condition`. -/
def parseJoinCondition (l : List Char) :
    Except String (String × String) := do
  let l := pyStrip l
  match findSub l ['='] with
  | none => throw "Invalid JOIN condition"
  | some i =>
    pure (String.mk (pyStrip (l.take i)), String.mk (pyStrip (l.drop (i + 1))))

/-- Scanner for the JOIN SELECT pattern, up to `ON\s+`. -/
def selectJoinScan (q : List Char) :
    Option (List Char × List Char × List Char × List Char) := do
  let r ← matchCI "SELECT".toList q
  let r ← wsPlus r
  joinFromScan r.length [] r

/-- `QueryParser._parse_select_with_join`:
`SELECT\s+(.*?)\s+FROM\s+(\w+)\s+JOIN\s+(\w+)\s+ON\s+(.*?)(?:\s+WHERE\s+(.*))?$`. -/
def parseSelectWithJoin (q : List Char) : Except String Plan :=
  match selectJoinScan q with
  | none => throw "Invalid SELECT with JOIN syntax"
  | some (colsRaw, w1, w2, afterOn) =>
    match parseJoinCondition
        (pyStrip (onScan afterOn.length [] afterOn).1) with
    | .error e => .error e
    | .ok (left, right) =>
      let whereC := match (onScan afterOn.length [] afterOn).2 with
        | some ws => if ws ≠ [] then some (parseWhereClause ws) else none
        | none => none
      pure (.selectJoin (String.mk w1) (String.mk w2) left right
        (parseSelectColumns colsRaw) whereC)

/-- `QueryParser._parse_select`: dispatch on whether the uppercased
statement contains the substring `" JOIN "`. -/
def parseSelect (q : List Char) : Except String Plan :=
  if (findSub (toUpperL q) " JOIN ".toList).isSome then parseSelectWithJoin q
  else parseSelectBasic q

/-- `QueryParser._parse_set_clause`. -/
def parseSetClause (l : List Char) : Except String (List (String × Value)) :=
  (splitByComma l).foldlM (fun updates assignment => do
    let assignment := pyStrip assignment
    match findSub assignment ['='] with
    | none => throw s!"Invalid assignment: {String.mk assignment}"
    | some i =>
      let colName := String.mk (pyStrip (assignment.take i))
      let v := parseValue (pyStrip (assignment.drop (i + 1)))
      pure (dSet strEq updates colName v)) []

/-- Scanner for the `UPDATE\s+(\w+)\s+SET\s+` prefix (the only part of
the UPDATE pattern that constrains the input). -/
def updateScan (q : List Char) : Option (List Char) := do
  let r ← matchCI "UPDATE".toList q
  let r ← wsPlus r
  let (w, r) ← word1 r
  let r ← wsPlus r
  let r ← matchCI "SET".toList r
  let _ ← wsPlus r
  pure w

/-- `QueryParser._parse_update`:
`UPDATE\s+(\w+)\s+SET\s+(.*?)(?:\s+WHERE\s+(.*))?`.

The regex is unanchored, the assignments group is lazy and the `WHERE`
group optional, so the backtracking engine always succeeds with an
empty assignments group and no `WHERE` group: after `SET\s+` consumes
the whitespace maximally, the empty lazy group followed by the absent
optional group already completes the pattern.  Consequently every
syntactically accepted UPDATE parses to an empty assignment dict and no
`where` entry. -/
def parseUpdate (q : List Char) : Except String Plan :=
  match updateScan q with
  | none => throw "Invalid UPDATE syntax"
  | some w => do
    let updates ← parseSetClause []
    pure (.update (String.mk w) updates none)

/-- Scanner for the DELETE pattern. -/
def deleteScan (q : List Char) :
    Option (List Char × Option (List Char)) := do
  let r ← matchCI "DELETE".toList q
  let r ← wsPlus r
  let r ← matchCI "FROM".toList r
  let r ← wsPlus r
  let (w, r) ← word1 r
  pure (w, tryWhereSep r)

/-- `QueryParser._parse_delete`:
`DELETE\s+FROM\s+(\w+)(?:\s+WHERE\s+(.*))?`; a missing or falsy `WHERE`
group raises. -/
def parseDelete (q : List Char) : Except String Plan :=
  match deleteScan q with
  | none => throw "Invalid DELETE syntax"
  | some (w, whereStr) =>
    match whereStr with
    | some ws =>
      if ws ≠ [] then pure (.delete (String.mk w) (parseWhereClause ws))
      else throw "DELETE without WHERE clause not allowed for safety"
    | none => throw "DELETE without WHERE clause not allowed for safety"

/-- `QueryParser._parse_show`. -/
def parseShow (q : List Char) : Except String Plan :=
  if toUpperL q = "SHOW TABLES".toList then pure .showTables
  else throw "Invalid SHOW syntax"

/-- Scanner for `DESCRIBE\s+(\w+)`. -/
def describeScan (q : List Char) : Option (List Char) := do
  let r ← matchCI "DESCRIBE".toList q
  let r ← wsPlus r
  let (w, _) ← word1 r
  pure w

/-- `QueryParser._parse_describe`: `DESCRIBE\s+(\w+)`. -/
def parseDescribe (q : List Char) : Except String Plan :=
  match describeScan q with
  | none => throw "Invalid DESCRIBE syntax"
  | some w => pure (.describe (String.mk w))

/-- The keyword dispatch of `QueryParser.parse`. -/
def parseByKeyword (fw : String) (ql : List Char) : Except String Plan :=
  if fw = "CREATE" then parseCreateTable ql
  else if fw = "INSERT" then parseInsert ql
  else if fw = "SELECT" then parseSelect ql
  else if fw = "UPDATE" then parseUpdate ql
  else if fw = "DELETE" then parseDelete ql
  else if fw = "SHOW" then parseShow ql
  else if fw = "DESCRIBE" then parseDescribe ql
  else throw s!"Unsupported query type: {fw}"

/-- Dispatch on the uppercased first whitespace-separated token; an
all-whitespace statement raises `IndexError` in Python. -/
def parseDispatch (ql : List Char) : Except String Plan :=
  match pySplitWs ql with
  | [] => throw "list index out of range"
  | w :: _ => parseByKeyword (String.mk (toUpperL w)) ql

/-- `QueryParser.parse`: strip, drop trailing semicolons, dispatch. -/
def parse (q : String) : Except String Plan :=
  parseDispatch (((pyStrip q.toList).reverse.dropWhile (fun c => c = ';')).reverse)

/-! ### Storage engine -/

/-- A table dict: `{columns, rows, primary_key, unique_keys}`. -/
structure Table where
  columns : List (String × ColDef)
  rows : List Row
  primary_key : Option String
  unique_keys : List String
deriving DecidableEq, Repr

/-- Per-table indexes: dict from indexed column name to its index. -/
abbrev TableIndexes := List (String × IndexMap)

/-- The two top-level dicts of `StorageEngine`. -/
structure DB where
  tables : List (String × Table)
  indexes : List (String × TableIndexes)
deriving DecidableEq, Repr

/-- Engine state: the in-memory `DB` plus the persisted snapshot
(the contents of `tables.json`/`indexes.json`, rewritten in full by
`_save_tables`). -/
structure EngineState where
  mem : DB
  disk : DB
deriving DecidableEq, Repr

def EngineState.init : EngineState := ⟨⟨[], []⟩, ⟨[], []⟩⟩

/-- `_save_tables`: rewrite both files from memory. -/
def saveTables (es : EngineState) : EngineState := { es with disk := es.mem }

/-- Python `dict[key]` on a string-keyed dict: `KeyError` (whose `str`
is the repr of the key) when absent. -/
def dictGetE {β : Type} (d : List (String × β)) (k : String) :
    Except String β :=
  match dGet strEq d k with
  | some v => pure v
  | none => throw s!"\x27{k}\x27"

/-- Python `int(value)` on the engine's values (`int`, `bool`, decimal
float truncated toward zero, or digit string). -/
def pyIntOf : Value → Except String Int
  | .int i => pure i
  | .bool b => pure (if b then 1 else 0)
  | .float m e => pure (Int.tdiv m ((10 : Int) ^ e))
  | .text s =>
    match pyIntParse s.toList with
    | some i => pure i
    | none =>
      throw s!"invalid literal for int() with base 10: \x27{s}\x27"
  | .null => throw "int() argument cannot be NoneType"

/-- Python `float(value)`. -/
def pyFloatOf : Value → Except String (Int × Nat)
  | .float m e => pure (m, e)
  | .int i => pure (i, 0)
  | .bool b => pure (if b then 1 else 0, 0)
  | .text s =>
    match pyFloatParse s.toList with
    | some me => pure me
    | none => throw s!"could not convert string to float: \x27{s}\x27"
  | .null => throw "float() argument cannot be NoneType"

/-- Inner body of `StorageEngine._validate_type` (inside the `try`). -/
def validateTypeInner (value : Value) (dataType : String) :
    Except String Value :=
  if dataType = "INT" then do
    pure (.int (← pyIntOf value))
  else if "VARCHAR".toList.isPrefixOf dataType.toList then do
    let strVal := value.pyStr
    if (findSub dataType.toList ['(']).isSome then
      let afterParen := (dataType.toList.dropWhile (fun c => c ≠ '(')).drop 1
      let lenStr := afterParen.takeWhile (fun c => c ≠ ')')
      match pyIntParse lenStr with
      | none =>
        throw s!"invalid literal for int() with base 10: \x27{String.mk lenStr}\x27"
      | some maxLen =>
        if (strVal.length : Int) > maxLen then
          throw s!"String too long: {strVal.length} > {maxLen}"
        else pure (.text strVal)
    else pure (.text strVal)
  else if dataType = "FLOAT" then do
    let (m, e) ← pyFloatOf value
    pure (.float m e)
  else if dataType = "BOOLEAN" then
    match value with
    | .bool b => pure (.bool b)
    | v =>
      pure (.bool (["true", "1", "yes", "on"].contains
        (String.mk (toLowerL v.pyStr.toList))))
  else if dataType = "DATETIME" then
    match value with
    | .text s => pure (.text s)
    | v => pure (.text v.pyStr)
  else pure value

/-- `StorageEngine._validate_type`: `None` passes through, failures are
wrapped as `Invalid value '<v>' for type '<T>': <cause>`. -/
def validateType (value : Value) (dataType : String) : Except String Value :=
  if value = .null then pure .null
  else
    match validateTypeInner value dataType with
    | .ok v => pure v
    | .error e =>
      throw s!"Invalid value \x27{value.pyStr}\x27 for type \x27{dataType}\x27: {e}"

/-- Python type name, for `TypeError` messages. -/
def typeName : Value → String
  | .null => "NoneType"
  | .int _ => "int"
  | .float _ _ => "float"
  | .bool _ => "bool"
  | .text _ => "str"

/-- An ordering comparison that raises `TypeError` on unordered kinds
(the operator named in the message is the one the source applies). -/
def pyCmpE (sym : String) (a b : Value) : Except String Ordering :=
  match Value.pyCmp a b with
  | some o => pure o
  | none =>
    throw s!"\x27{sym}\x27 not supported between instances of \x27{typeName a}\x27 and \x27{typeName b}\x27"

/-- The operator-dict loop shared verbatim by
`StorageEngine._matches_where_clause` and
`QueryExecutor._matches_where_clause_join`: `True` when no early
`return False` fires for the row value `rv`. -/
def condOpsCheck (rv : Value) : List (String × Value) → Except String Bool
  | [] => pure true
  | (op, v) :: rest =>
    if op = "=" then
      if ¬ rv.pyEq v then pure false else condOpsCheck rv rest
    else if op = ">" then
      if rv = .null then pure false
      else do
        let o ← pyCmpE "<=" rv v
        if o ≠ .gt then pure false else condOpsCheck rv rest
    else if op = "<" then
      if rv = .null then pure false
      else do
        let o ← pyCmpE ">=" rv v
        if o ≠ .lt then pure false else condOpsCheck rv rest
    else if op = ">=" then
      if rv = .null then pure false
      else do
        let o ← pyCmpE "<" rv v
        if o = .lt then pure false else condOpsCheck rv rest
    else if op = "<=" then
      if rv = .null then pure false
      else do
        let o ← pyCmpE ">" rv v
        if o = .gt then pure false else condOpsCheck rv rest
    else if op = "!=" then
      if rv.pyEq v then pure false else condOpsCheck rv rest
    else condOpsCheck rv rest

/-- `StorageEngine._matches_where_clause`: all conjuncts must hold; the
row value defaults to `None` when the column is absent. -/
def matchesWhereClause (row : Row) : WhereClause → Except String Bool
  | [] => pure true
  | (colName, cond) :: rest => do
    let rv := (rowGet row colName).getD .null
    match cond with
    | .lit v =>
      if ¬ rv.pyEq v then pure false else matchesWhereClause row rest
    | .ops l => do
      let c ← condOpsCheck rv l
      if c then matchesWhereClause row rest else pure false

/-- `StorageEngine.create_table`. -/
def createTable (es : EngineState) (tn : String)
    (columns : List (String × ColDef)) : Except String Unit × EngineState :=
  if dHas strEq es.mem.tables tn then
    (.error s!"Table \x27{tn}\x27 already exists", es)
  else
    let pks := (columns.filter (fun p => p.2.primary_key)).map Prod.fst
    let uks := (columns.filter (fun p => p.2.unique)).map Prod.fst
    if pks.length > 1 then
      (.error "Multiple primary keys not supported", es)
    else
      let tbl : Table := ⟨columns, [], pks.head?, uks⟩
      let idx : TableIndexes :=
        (pks ++ uks).foldl (fun m k => dSet strEq m k []) []
      let mem : DB := ⟨dSet strEq es.mem.tables tn tbl,
                       dSet strEq es.mem.indexes tn idx⟩
      (pure (), saveTables { es with mem := mem })

/-- One step of the validation loop of `StorageEngine.insert_row`:
default an absent value to `None`, enforce `NOT NULL`, coerce. -/
def validateCol (rowData : List (String × Value)) (vr : Row)
    (p : String × ColDef) : Except String Row :=
  let value := (dGet strEq rowData p.1).getD .null
  if p.2.not_null ∧ value = .null then
    throw s!"Column \x27{p.1}\x27 cannot be NULL"
  else if value ≠ .null then do
    let v ← validateType value p.2.type
    pure (dSet strEq vr p.1 v)
  else pure (dSet strEq vr p.1 .null)

/-- The validation loop of `StorageEngine.insert_row`: walk the
declared columns in order. -/
def validateRow (tbl : Table) (rowData : List (String × Value)) :
    Except String Row :=
  tbl.columns.foldlM (validateCol rowData) []

/-- The primary-key and unique checks of `StorageEngine.insert_row`.
`if table['primary_key']:` is a Python truthiness test on the stored
column NAME, so the whole PK check is skipped when `primary_key` is
`None` or the falsy empty string; the unique check fires only for
truthy row values. -/
def insertChecks (es : EngineState) (tn : String) (tbl : Table)
    (vr : Row) : Except String Unit := do
  (match tbl.primary_key with
   | some pk =>
     if pk = "" then pure ()
     else do
       let pkv ← dictGetE vr pk
       let tIdx ← dictGetE es.mem.indexes tn
       let colIdx ← dictGetE tIdx pk
       if dHas Value.pyEq colIdx pkv then
         throw s!"Primary key violation: {pkv.pyStr} already exists"
       else pure ()
   | none => pure ())
  tbl.unique_keys.forM (fun uk =>
    if tbl.primary_key ≠ some uk then do
      let ukv ← dictGetE vr uk
      let tIdx ← dictGetE es.mem.indexes tn
      let colIdx ← dictGetE tIdx uk
      if ukv.pyTruthy ∧ dHas Value.pyEq colIdx ukv then
        throw s!"Unique constraint violation: {ukv.pyStr} already exists"
      else pure ()
    else pure ())

/-- `StorageEngine.insert_row`: validate, check constraints, append the
row with `_row_id = len(rows)`, index its non-`None` values, persist. -/
def insertRow (es : EngineState) (tn : String)
    (rowData : List (String × Value)) : Except String Nat × EngineState :=
  match dGet strEq es.mem.tables tn with
  | none => (.error s!"Table \x27{tn}\x27 does not exist", es)
  | some tbl =>
    match validateRow tbl rowData with
    | .error e => (.error e, es)
    | .ok vr =>
      match insertChecks es tn tbl vr with
      | .error e => (.error e, es)
      | .ok _ =>
        let rowId := tbl.rows.length
        let vr := dSet strEq vr "_row_id" (.int rowId)
        let tbl' := { tbl with rows := tbl.rows ++ [vr] }
        let memRows : DB := { es.mem with
          tables := dSet strEq es.mem.tables tn tbl' }
        match dGet strEq memRows.indexes tn with
        | none =>
          -- `KeyError` after the append: the row stays, nothing saved.
          (.error s!"\x27{tn}\x27", { es with mem := memRows })
        | some tIdx =>
          let tIdx' := tIdx.map (fun (p : String × IndexMap) =>
            let value := (rowGet vr p.1).getD .null
            if value ≠ .null then (p.1, dSet Value.pyEq p.2 value rowId)
            else p)
          let mem' : DB := { memRows with
            indexes := dSet strEq memRows.indexes tn tIdx' }
          (pure rowId, saveTables { es with mem := mem' })

/-- `StorageEngine.select_rows`: a missing or empty (falsy) predicate
returns every row; otherwise filter, propagating comparison errors. -/
def selectRows (es : EngineState) (tn : String) (wc : Option WhereClause) :
    Except String (List Row) := do
  match dGet strEq es.mem.tables tn with
  | none => throw s!"Table \x27{tn}\x27 does not exist"
  | some tbl =>
    match wc with
    | none => pure tbl.rows
    | some w =>
      if w = [] then pure tbl.rows
      else tbl.rows.foldlM (fun acc row => do
        let m ← matchesWhereClause row w
        pure (if m then acc ++ [row] else acc)) []

/-- The assignment loop of `StorageEngine.update_rows` for one matched
row `i`: unknown columns are skipped silently; a PK/unique target scans
all *other* rows for the raw (un-coerced) new value; the stored value
is coerced; the per-column index drops the old value's key and maps the
raw new value to `i`.  On error the already-applied mutations are
returned alongside. -/
def applyAssignments (tn : String) (tbl : Table) (i : Nat) :
    List (String × Value) → List Row → List (String × TableIndexes) →
    Except String Unit × List Row × List (String × TableIndexes)
  | [], rows, idxs => (pure (), rows, idxs)
  | (colName, newValue) :: restUpdates, rows, idxs =>
    match dGet strEq tbl.columns colName with
    | none => applyAssignments tn tbl i restUpdates rows idxs
    | some colDef =>
      let conflict := (colDef.primary_key ∨ tbl.unique_keys.contains colName) ∧
        rows.enum.any (fun (p : Nat × Row) =>
          p.1 != i && Value.pyEq ((rowGet p.2 colName).getD .null) newValue)
      if conflict then
        (.error s!"Constraint violation: {newValue.pyStr} already exists",
         rows, idxs)
      else
        let row := rows.getD i []
        let oldValue := (rowGet row colName).getD .null
        match validateType newValue colDef.type with
        | .error e => (.error e, rows, idxs)
        | .ok v =>
          let rows' := rows.set i (dSet strEq row colName v)
          match dGet strEq idxs tn with
          | none => (.error s!"\x27{tn}\x27", rows', idxs)
          | some tIdx =>
            let idxs' :=
              if dHas strEq tIdx colName then
                let colIdx := (dGet strEq tIdx colName).getD []
                let colIdx :=
                  if dHas Value.pyEq colIdx oldValue then
                    dDel Value.pyEq colIdx oldValue
                  else colIdx
                let colIdx := dSet Value.pyEq colIdx newValue i
                dSet strEq idxs tn (dSet strEq tIdx colName colIdx)
              else idxs
            applyAssignments tn tbl i restUpdates rows' idxs'

/-- The row loop of `StorageEngine.update_rows`. -/
def updateRowsLoop (tn : String) (tbl : Table)
    (updates : List (String × Value)) (wc : WhereClause) :
    Nat → Nat → Nat → List Row → List (String × TableIndexes) →
    Except String Nat × List Row × List (String × TableIndexes)
  | 0, _, count, rows, idxs => (pure count, rows, idxs)
  | fuel + 1, i, count, rows, idxs =>
    if i < rows.length then
      match matchesWhereClause (rows.getD i []) wc with
      | .error e => (.error e, rows, idxs)
      | .ok false => updateRowsLoop tn tbl updates wc fuel (i + 1) count rows idxs
      | .ok true =>
        match applyAssignments tn tbl i updates rows idxs with
        | (.error e, rows', idxs') => (.error e, rows', idxs')
        | (.ok _, rows', idxs') =>
          updateRowsLoop tn tbl updates wc fuel (i + 1) (count + 1) rows' idxs'
    else (pure count, rows, idxs)

/-- `StorageEngine.update_rows`: iterate rows in order, mutating in
place; `_save_tables` runs only after the whole loop succeeds, so an
error leaves the partial in-memory mutation behind and the persisted
snapshot untouched. -/
def updateRows (es : EngineState) (tn : String)
    (updates : List (String × Value)) (wc : WhereClause) :
    Except String Nat × EngineState :=
  match dGet strEq es.mem.tables tn with
  | none => (.error s!"Table \x27{tn}\x27 does not exist", es)
  | some tbl =>
    let r := updateRowsLoop tn tbl updates wc tbl.rows.length 0 0
      tbl.rows es.mem.indexes
    let mem' : DB :=
      ⟨dSet strEq es.mem.tables tn { tbl with rows := r.2.1 }, r.2.2⟩
    match r.1 with
    | .error e => (.error e, { es with mem := mem' })
    | .ok n => (pure n, saveTables { es with mem := mem' })

/-- Collect the ordinals of the rows matching the predicate
(`delete_rows`, first loop). -/
def collectMatches (wc : WhereClause) : Nat → List Row →
    Except String (List Nat)
  | _, [] => pure []
  | i, row :: rest => do
    let m ← matchesWhereClause row wc
    let more ← collectMatches wc (i + 1) rest
    pure (if m then i :: more else more)

/-- The deletion loop of `delete_rows`: for each ordinal (descending),
drop the row's indexed values from the per-column indexes, then remove
the row. -/
def deleteLoop : List Nat → List Row → TableIndexes →
    List Row × TableIndexes
  | [], rows, tIdx => (rows, tIdx)
  | i :: restIdxs, rows, tIdx =>
    let row := rows.getD i []
    let tIdx := tIdx.map (fun (p : String × IndexMap) =>
      let value := (rowGet row p.1).getD .null
      if dHas Value.pyEq p.2 value then (p.1, dDel Value.pyEq p.2 value)
      else p)
    deleteLoop restIdxs (rows.eraseIdx i) tIdx

/-- `StorageEngine._rebuild_indexes`, inner walk: renumber `_row_id`
and repopulate every index with the non-`None` values. -/
def rebuildGo : Nat → List Row → TableIndexes → List Row × TableIndexes
  | _, [], idx => ([], idx)
  | i, row :: rest, idx =>
    let row := dSet strEq row "_row_id" (.int i)
    let idx := idx.map (fun (p : String × IndexMap) =>
      let value := (rowGet row p.1).getD .null
      if value ≠ .null then (p.1, dSet Value.pyEq p.2 value i) else p)
    let r := rebuildGo (i + 1) rest idx
    (row :: r.1, r.2)

/-- `StorageEngine._rebuild_indexes`: reset the table's indexes to
fresh maps for every PK/unique-flagged column, then rebuild from the
surviving rows. -/
def rebuildIndexes (tbl : Table) : List Row × TableIndexes :=
  let init : TableIndexes := tbl.columns.foldl
    (fun m (p : String × ColDef) =>
      if p.2.primary_key ∨ p.2.unique then dSet strEq m p.1 [] else m) []
  rebuildGo 0 tbl.rows init

/-- `StorageEngine.delete_rows`: collect matches, delete in descending
ordinal order, rebuild indexes and `_row_id`s, persist. -/
def deleteRows (es : EngineState) (tn : String) (wc : WhereClause) :
    Except String Nat × EngineState :=
  match dGet strEq es.mem.tables tn with
  | none => (.error s!"Table \x27{tn}\x27 does not exist", es)
  | some tbl =>
    match collectMatches wc 0 tbl.rows with
    | .error e => (.error e, es)
    | .ok toDel =>
      match dGet strEq es.mem.indexes tn with
      | none =>
        -- `KeyError` on the first deletion's index walk.
        if toDel ≠ [] then (.error s!"\x27{tn}\x27", es)
        else
          let r := rebuildIndexes tbl
          let mem' : DB :=
            ⟨dSet strEq es.mem.tables tn { tbl with rows := r.1 },
             dSet strEq es.mem.indexes tn r.2⟩
          (pure toDel.length, saveTables { es with mem := mem' })
      | some tIdx =>
        let d := deleteLoop toDel.reverse tbl.rows tIdx
        let r := rebuildIndexes { tbl with rows := d.1 }
        let mem' : DB :=
          ⟨dSet strEq es.mem.tables tn { tbl with rows := r.1 },
           dSet strEq es.mem.indexes tn r.2⟩
        (pure toDel.length, saveTables { es with mem := mem' })

/-- `StorageEngine.get_table_schema` (the schema record is read off the
returned table; `row_count` is its row-list length). -/
def getTableSchema (es : EngineState) (tn : String) : Except String Table :=
  match dGet strEq es.mem.tables tn with
  | none => throw s!"Table \x27{tn}\x27 does not exist"
  | some tbl => pure tbl

/-- `StorageEngine.list_tables`. -/
def listTables (es : EngineState) : List String := dKeys es.mem.tables

/-! ### Query executor -/

/-- One entry of a DESCRIBE result. -/
structure DescribeCol where
  column : String
  type : String
  constraints : Option String
deriving DecidableEq, Repr

/-- The result dict `QueryExecutor.execute` returns: a success flag and
whichever payload keys the branch sets. -/
structure PyResult where
  success : Bool
  error : Option String := none
  message : Option String := none
  rows : Option (List Row) := none
  count : Option Nat := none
  row_id : Option Nat := none
  updated_count : Option Nat := none
  deleted_count : Option Nat := none
  tables : Option (List String) := none
  table : Option String := none
  columns : Option (List DescribeCol) := none
  row_count : Option Nat := none
deriving DecidableEq, Repr

/-- `{'success': False, 'error': str(e)}`. -/
def failRes (e : String) : PyResult := { success := false, error := some e }

/-- `QueryExecutor._execute_create_table`. -/
def execCreateTable (es : EngineState) (tn : String)
    (cols : List (String × ColDef)) : PyResult × EngineState :=
  match createTable es tn cols with
  | (.ok _, es') =>
    ({ success := true,
       message := some s!"Table \x27{tn}\x27 created successfully" }, es')
  | (.error e, es') => (failRes e, es')

/-- Build the `row_data` dict by zipping column names with values. -/
def zipToDict (cols : List String) (values : List Value) :
    List (String × Value) :=
  (cols.zip values).foldl (fun d p => dSet strEq d p.1 p.2) []

/-- `QueryExecutor._execute_insert`. -/
def execInsert (es : EngineState) (tn : String)
    (insCols : Option (List String)) (values : List Value) :
    PyResult × EngineState :=
  match getTableSchema es tn with
  | .error e => (failRes e, es)
  | .ok tbl =>
    let columns := dKeys tbl.columns
    let rowDataE : Except String (List (String × Value)) :=
      match insCols with
      | some spec =>
        if spec.length ≠ values.length then
          throw "Column count doesn\x27t match value count"
        else pure (zipToDict spec values)
      | none =>
        if values.length ≠ columns.length then
          throw s!"Expected {columns.length} values, got {values.length}"
        else pure (zipToDict columns values)
    match rowDataE with
    | .error e => (failRes e, es)
    | .ok rowData =>
      match insertRow es tn rowData with
      | (.ok rowId, es') =>
        ({ success := true, message := some s!"Row inserted with ID {rowId}",
           row_id := some rowId }, es')
      | (.error e, es') => (failRes e, es')

/-- The explicit-projection loop of `QueryExecutor._execute_select`:
each requested column is copied iff its key is present in the row. -/
def projectRow (cols : List String) (row : Row) : Row :=
  cols.foldl (fun acc c =>
    match dGet strEq row c with
    | some v => dSet strEq acc c v
    | none => acc) []

/-- The `*` projection: keep the fields whose names do not start with
an underscore. -/
def stripInternal (row : Row) : Row :=
  row.filter (fun p => !(pyStartsWith p.1 "_"))

/-- `QueryExecutor._execute_select`. -/
def execSelect (es : EngineState) (tn : String) (cols : List String)
    (wc : Option WhereClause) : PyResult × EngineState :=
  match selectRows es tn wc with
  | .error e => (failRes e, es)
  | .ok rows =>
    let resultRows :=
      if cols = ["*"] then rows.map stripInternal
      else rows.map (projectRow cols)
    ({ success := true, rows := some resultRows,
       count := some resultRows.length }, es)

/-- Split at the first `'.'` (Python `split('.', 1)`). -/
def splitDot (s : String) : Option (String × String) :=
  match findSub s.toList ['.'] with
  | some i =>
    some (String.mk (s.toList.take i), String.mk (s.toList.drop (i + 1)))
  | none => none

/-- `QueryExecutor._evaluate_join_condition`. -/
def evalJoinCondition (row1 row2 : Row) (left right : String)
    (t1 t2 : String) : Bool :=
  let lp := (splitDot left).getD (t1, left)
  let rp := (splitDot right).getD (t2, right)
  let lv := if lp.1 = t1 then (rowGet row1 lp.2).getD .null
            else (rowGet row2 lp.2).getD .null
  let rv := if rp.1 = t2 then (rowGet row2 rp.2).getD .null
            else (rowGet row1 rp.2).getD .null
  Value.pyEq lv rv

/-- Combine two matched rows into the flat `table.col`-keyed record. -/
def combineJoinRow (t1 t2 : String) (row1 row2 : Row) : Row :=
  let a := row1.foldl (fun acc (p : String × Value) =>
    if !(pyStartsWith p.1 "_") then dSet strEq acc (t1 ++ "." ++ p.1) p.2
    else acc) []
  row2.foldl (fun acc (p : String × Value) =>
    if !(pyStartsWith p.1 "_") then dSet strEq acc (t2 ++ "." ++ p.1) p.2
    else acc) a

/-- Row-value resolution of `_matches_where_clause_join`: verbatim key
first, then the first key ending in `.col`, else `None`. -/
def resolveJoinVal (row : Row) (colName : String) : Value :=
  match dGet strEq row colName with
  | some v => v
  | none =>
    match row.find? (fun p =>
        ("." ++ colName).toList.isSuffixOf p.1.toList) with
    | some p => p.2
    | none => .null

/-- `QueryExecutor._matches_where_clause_join` (same conjunct logic as
the storage matcher, with prefix-tolerant column resolution). -/
def matchesWhereClauseJoin (row : Row) : WhereClause → Except String Bool
  | [] => pure true
  | (colName, cond) :: rest => do
    let rv := resolveJoinVal row colName
    match cond with
    | .lit v =>
      if ¬ rv.pyEq v then pure false else matchesWhereClauseJoin row rest
    | .ops l => do
      let c ← condOpsCheck rv l
      if c then matchesWhereClauseJoin row rest else pure false

/-- The projection loop of `_execute_select_join`: verbatim lookup
first, then the `.suffix` fallback; names resolving nowhere produce no
field. -/
def projectJoinRow (cols : List String) (row : Row) : Row :=
  cols.foldl (fun acc c =>
    let c := String.mk (pyStrip c.toList)
    match dGet strEq row c with
    | some v => dSet strEq acc c v
    | none =>
      match row.find? (fun p => ("." ++ c).toList.isSuffixOf p.1.toList) with
      | some p => dSet strEq acc c p.2
      | none => acc) []

/-- The inner-join cross-product loop of `_execute_select_join`. -/
def joinCross (t1 t2 left right : String) (rows1 rows2 : List Row) :
    List Row :=
  rows1.foldl (fun acc r1 =>
    acc ++ (rows2.filter (fun r2 =>
      evalJoinCondition r1 r2 left right t1 t2)).map
      (combineJoinRow t1 t2 r1)) []

/-- The WHERE filter of `_execute_select_join` (skipped for a missing
or falsy predicate). -/
def joinFilter (wc : Option WhereClause) (joined : List Row) :
    Except String (List Row) :=
  match wc with
  | some w =>
    if w = [] then pure joined
    else joined.foldlM (fun acc row => do
      let m ← matchesWhereClauseJoin row w
      pure (if m then acc ++ [row] else acc)) []
  | none => pure joined

/-- `QueryExecutor._execute_select_join`. -/
def execSelectJoin (es : EngineState) (t1 t2 left right : String)
    (cols : List String) (wc : Option WhereClause) :
    PyResult × EngineState :=
  match selectRows es t1 none with
  | .error e => (failRes e, es)
  | .ok rows1 =>
    match selectRows es t2 none with
    | .error e => (failRes e, es)
    | .ok rows2 =>
      match joinFilter wc (joinCross t1 t2 left right rows1 rows2) with
      | .error e => (failRes e, es)
      | .ok joined' =>
        let resultRows :=
          if cols = ["*"] then joined' else joined'.map (projectJoinRow cols)
        ({ success := true, rows := some resultRows,
           count := some resultRows.length }, es)

/-- `QueryExecutor._execute_update`: a missing or falsy (empty) `where`
raises the safety error before the storage engine is touched. -/
def execUpdate (es : EngineState) (tn : String)
    (updates : List (String × Value)) (wc : Option WhereClause) :
    PyResult × EngineState :=
  match wc with
  | none => (failRes "UPDATE without WHERE clause not allowed for safety", es)
  | some w =>
    if w = [] then
      (failRes "UPDATE without WHERE clause not allowed for safety", es)
    else
      match updateRows es tn updates w with
      | (.ok n, es') =>
        ({ success := true, message := some s!"Updated {n} row(s)",
           updated_count := some n }, es')
      | (.error e, es') => (failRes e, es')

/-- `QueryExecutor._execute_delete`. -/
def execDelete (es : EngineState) (tn : String) (wc : WhereClause) :
    PyResult × EngineState :=
  match deleteRows es tn wc with
  | (.ok n, es') =>
    ({ success := true, message := some s!"Deleted {n} row(s)",
       deleted_count := some n }, es')
  | (.error e, es') => (failRes e, es')

/-- `QueryExecutor._execute_show_tables`. -/
def execShowTables (es : EngineState) : PyResult × EngineState :=
  ({ success := true, tables := some (listTables es),
     count := some (listTables es).length }, es)

/-- The constraint strings `_execute_describe` renders per column. -/
def describeCols (cols : List (String × ColDef)) : List DescribeCol :=
  cols.map (fun p =>
    let cs := (if p.2.primary_key then ["PRIMARY KEY"] else []) ++
              (if p.2.unique ∧ ¬ p.2.primary_key then ["UNIQUE"] else []) ++
              (if p.2.not_null then ["NOT NULL"] else [])
    ⟨p.1, p.2.type,
     if cs = [] then none else some (String.intercalate ", " cs)⟩)

/-- `QueryExecutor._execute_describe`. -/
def execDescribe (es : EngineState) (tn : String) : PyResult × EngineState :=
  match getTableSchema es tn with
  | .error e => (failRes e, es)
  | .ok tbl =>
    ({ success := true, table := some tn,
       columns := some (describeCols tbl.columns),
       row_count := some tbl.rows.length }, es)

/-- `QueryExecutor.execute`: parse, dispatch on the plan variant;
every exception raised anywhere below is caught and surfaced as
`{'success': False, 'error': str(e)}`. -/
def execute (es : EngineState) (q : String) : PyResult × EngineState :=
  match parse q with
  | .error e => (failRes e, es)
  | .ok plan =>
    match plan with
    | .createTable t cols => execCreateTable es t cols
    | .insert t ic vs => execInsert es t ic vs
    | .select t cols wc => execSelect es t cols wc
    | .selectJoin t1 t2 l r cols wc => execSelectJoin es t1 t2 l r cols wc
    | .update t ups wc => execUpdate es t ups wc
    | .delete t wc => execDelete es t wc
    | .showTables => execShowTables es
    | .describe t => execDescribe es t

/-! ### Specification-side definitions: invariants and reachability -/

/-- The value a row holds in a column (`None` when absent). -/
def colVal (r : Row) (c : String) : Value := (rowGet r c).getD .null

/-- The index map the engine's create/insert/rebuild code maintains for
column `c`: walk the rows in order and map every non-`None` value to
its ordinal, so a duplicated value ends up mapped to its **last**
ordinal. -/
def buildIdx (c : String) : Nat → List Row → IndexMap → IndexMap
  | _, [], m => m
  | i, r :: rest, m =>
    buildIdx c (i + 1) rest
      (if colVal r c ≠ .null then dSet Value.pyEq m (colVal r c) i else m)

/-- No two rows hold `pyEq`-equal non-`None` values in column `c`. -/
def noDupCol (c : String) : List Row → Bool
  | [] => true
  | r :: rest =>
    (colVal r c == Value.null ||
      rest.all (fun r2 => !(colVal r2 c).pyEq (colVal r c))) &&
    noDupCol c rest

/-- No two rows hold `pyEq`-equal truthy values in column `c` (the
uniqueness insert enforces, since its check is skipped for falsy
values). -/
def noDupTruthy (c : String) : List Row → Bool
  | [] => true
  | r :: rest =>
    (!(colVal r c).pyTruthy ||
      rest.all (fun r2 => !(colVal r2 c).pyEq (colVal r c))) &&
    noDupTruthy c rest

/-- Every row's `_row_id` equals its ordinal (counting from `i`). -/
def rowIdsFrom (i : Nat) : List Row → Bool
  | [] => true
  | r :: rest =>
    rowGet r "_row_id" == some (.int i) && rowIdsFrom (i + 1) rest

/-- The `_row_id` renumbering `_rebuild_indexes` applies. -/
def renumber : Nat → List Row → List Row
  | _, [] => []
  | i, r :: rest => dSet strEq r "_row_id" (.int i) :: renumber (i + 1) rest

/-- Columns carrying the `primary_key` flag, in declaration order. -/
def flaggedPks (columns : List (String × ColDef)) : List String :=
  (columns.filter (fun p => p.2.primary_key)).map Prod.fst

/-- Columns carrying the `unique` flag, in declaration order. -/
def flaggedUks (columns : List (String × ColDef)) : List String :=
  (columns.filter (fun p => p.2.unique)).map Prod.fst

/-- The dict has no duplicate keys (Python dicts cannot). -/
def nodupKeysB {β : Type} (d : List (String × β)) : Bool :=
  (dKeys d).Nodup

/-- `c` is a declared column with a PK or unique flag. -/
def idxColOkB (tbl : Table) (c : String) : Bool :=
  match dGet strEq tbl.columns c with
  | some d => d.primary_key || d.unique
  | none => false

/-- Well-formedness of one table record: the stored `primary_key` and
`unique_keys` agree with the column flags, and the uniqueness
guarantees hold on its rows exactly where the source enforces them: a
primary-key column named `""` is falsy in Python, so its duplicate
check is skipped (and with it the unique check of that same column,
which defers to the PK check). -/
def tableInvB (tbl : Table) : Bool :=
  tbl.primary_key == (flaggedPks tbl.columns).head? &&
  tbl.unique_keys == flaggedUks tbl.columns &&
  decide ((flaggedPks tbl.columns).length ≤ 1) &&
  nodupKeysB tbl.columns &&
  rowIdsFrom 0 tbl.rows &&
  (match tbl.primary_key with
   | some pk => pk == "" || noDupCol pk tbl.rows
   | none => true) &&
  tbl.unique_keys.all (fun c =>
    (tbl.primary_key == some c && c == "") || noDupTruthy c tbl.rows)

/-- Well-formedness of a table's index dict: it indexes exactly the
flagged columns, and each per-column map is the canonical
last-occurrence map of the rows. -/
def tableIdxInvB (tbl : Table) (tIdx : TableIndexes) : Bool :=
  (dKeys tIdx).all (idxColOkB tbl) &&
  (tbl.columns.filter (fun p => p.2.primary_key || p.2.unique)).all
    (fun p => dHas strEq tIdx p.1) &&
  tIdx.all (fun p => p.2 == buildIdx p.1 0 tbl.rows [])

/-- Engine-state invariant: table names are unique, and every table has
a well-formed record and index dict. -/
def invB (es : EngineState) : Bool :=
  nodupKeysB es.mem.tables &&
  es.mem.tables.all (fun p =>
    tableInvB p.2 &&
    (match dGet strEq es.mem.indexes p.1 with
     | some tIdx => tableIdxInvB p.2 tIdx
     | none => false))

/-- States reachable from a fresh engine by successful `create_table`,
`insert_row` and `delete_rows` calls (the arguments being Python dicts,
their keys are duplicate-free). -/
inductive Reachable : EngineState → Prop where
  | init : Reachable EngineState.init
  | create {es es' : EngineState} {tn : String}
      {columns : List (String × ColDef)} {r : Unit} :
      Reachable es → nodupKeysB columns = true →
      createTable es tn columns = (.ok r, es') → Reachable es'
  | insert {es es' : EngineState} {tn : String}
      {rowData : List (String × Value)} {n : Nat} :
      Reachable es → insertRow es tn rowData = (.ok n, es') → Reachable es'
  | delete {es es' : EngineState} {tn : String} {wc : WhereClause} {n : Nat} :
      Reachable es → deleteRows es tn wc = (.ok n, es') → Reachable es'

/-- The success-payload shape each plan variant fixes (§6 of the
spec). -/
def resultShape (p : Plan) (r : PyResult) : Prop :=
  match p with
  | .createTable _ _ => r.message.isSome
  | .insert _ _ _ => r.message.isSome ∧ r.row_id.isSome
  | .select _ _ _ => r.rows.isSome ∧ r.count.isSome
  | .selectJoin _ _ _ _ _ _ => r.rows.isSome ∧ r.count.isSome
  | .update _ _ _ => r.message.isSome ∧ r.updated_count.isSome
  | .delete _ _ => r.message.isSome ∧ r.deleted_count.isSome
  | .showTables => r.tables.isSome ∧ r.count.isSome
  | .describe _ => r.table.isSome ∧ r.columns.isSome ∧ r.row_count.isSome

/-! ### Concrete scenario states used by witnesses and counterexamples -/

/-- `categories` table with one row `(1, 'Books')`. -/
def esCat : EngineState :=
  (execute (execute EngineState.init
    "CREATE TABLE categories (id INT PRIMARY KEY, name VARCHAR(100) NOT NULL)").2
    "INSERT INTO categories VALUES (1, \x27Books\x27)").2

/-- Table `t` with an INT PK and an INT UNIQUE column, holding
`(1, 0)`. -/
def esUniq : EngineState :=
  (execute (execute EngineState.init
    "CREATE TABLE t (id INT PRIMARY KEY, code INT UNIQUE)").2
    "INSERT INTO t VALUES (1, 0)").2

/-- Table `u` with a single INT PK column, holding `(1)`. -/
def esU : EngineState :=
  (execute (execute EngineState.init
    "CREATE TABLE u (id INT PRIMARY KEY)").2
    "INSERT INTO u VALUES (1)").2

/-- Table `w` with rows `(1, 1)` and `(2, 2)`. -/
def esW : EngineState :=
  (execute (execute (execute EngineState.init
    "CREATE TABLE w (id INT PRIMARY KEY, x INT)").2
    "INSERT INTO w VALUES (1, 1)").2
    "INSERT INTO w VALUES (2, 2)").2

/-- An `update_rows` call on `esW` that matches both rows, applies
`x = 9` and then `id = 3` to each: the second row's `id = 3` collides
with the first row's already-updated `id`. -/
def esWUpd : Except String Nat × EngineState :=
  updateRows esW "w" [("x", Value.int 9), ("id", Value.int 3)]
    [("x", Cond.ops [(">", Value.int 0)])]

/-- Column list used by the reachable-history witnesses: an INT
primary key `a` (NOT NULL) and an INT UNIQUE column `b`. -/
def colsR : List (String × ColDef) :=
  [("a", ⟨"INT", true, true, false⟩), ("b", ⟨"INT", false, false, true⟩)]

/-- The state reached from a fresh engine by the storage-API history
`create_table(t, colsR)` then `insert_row(t, {a: 1, b: 2})`. -/
def esR : EngineState :=
  (insertRow (createTable EngineState.init "t" colsR).2 "t"
    [("a", Value.int 1), ("b", Value.int 2)]).2

/-- The table record `esR` stores under `t`. -/
def tblR : Table :=
  ⟨colsR,
   [[("a", Value.int 1), ("b", Value.int 2), ("_row_id", Value.int 0)]],
   some "a", ["b"]⟩

/-- The table record `esCat` stores under `categories`. -/
def tblCat : Table :=
  ⟨[("id", ⟨"INT", true, true, false⟩),
    ("name", ⟨"VARCHAR(100)", true, false, false⟩)],
   [[("id", Value.int 1), ("name", Value.text "Books"),
     ("_row_id", Value.int 0)]],
   some "id", []⟩

/-- The `update_rows` call `id := NULL` with an empty predicate on
`esU`: it succeeds and re-keys the `id` index under `Null`. -/
def esUUpd : Except String Nat × EngineState :=
  updateRows esU "u" [("id", Value.null)] []

/-- Table `p` whose single INT PRIMARY KEY column is named `""` (a
falsy name, expressible through the raw `create_table` API), holding
one row with value `1`. -/
def esEmptyPk : EngineState :=
  (insertRow (createTable EngineState.init "p"
    [("", ⟨"INT", true, true, false⟩)]).2 "p" [("", Value.int 1)]).2

/-! ## Equality-test facts -/

theorem strEq_refl (a : String) : strEq a a = true := by
  simp [strEq]

theorem strEq_symm (a b : String) : strEq a b = strEq b a := by
  by_cases h : a = b
  · subst h; rfl
  · have h' : ¬ b = a := fun hba => h hba.symm
    simp [strEq, h, h']

theorem strEq_trans (a b c : String) (h1 : strEq a b = true)
    (h2 : strEq b c = true) : strEq a c = true := by
  simp [strEq] at h1 h2 ⊢
  exact h1.trans h2

theorem strEq_eq (a b : String) : strEq a b = true ↔ a = b := by
  simp [strEq]

theorem pyEq_key (a b : Value) : a.pyEq b = true ↔ a.key = b.key := by
  simp [Value.pyEq]

theorem pyEq_refl (a : Value) : a.pyEq a = true := by
  simp [Value.pyEq]

theorem pyEq_symm (a b : Value) : a.pyEq b = b.pyEq a := by
  by_cases h : a.key = b.key
  · simp [Value.pyEq, h]
  · have h' : ¬ b.key = a.key := fun hb => h hb.symm
    simp [Value.pyEq, h, h']

theorem pyEq_trans (a b c : Value) (h1 : a.pyEq b = true)
    (h2 : b.pyEq c = true) : a.pyEq c = true := by
  rw [pyEq_key] at h1 h2 ⊢
  exact h1.trans h2

theorem pyEq_null_iff (a : Value) : a.pyEq .null = true ↔ a = .null := by
  cases a <;> simp [Value.pyEq, Value.key]

/-- Truthiness of a `==`-class. -/
def keyTruthy : Value.PyKey → Bool
  | .none => false
  | .num q => q ≠ 0
  | .str s => s ≠ ""

theorem pyTruthy_key (v : Value) : v.pyTruthy = keyTruthy v.key := by
  cases v with
  | null => rfl
  | int i => simp [Value.pyTruthy, Value.key, keyTruthy]
  | float m e =>
    have h10 : ((10 : ℚ) ^ e) ≠ 0 := pow_ne_zero _ (by norm_num)
    simp [Value.pyTruthy, Value.key, keyTruthy, div_eq_zero_iff, h10]
  | bool b => cases b <;> simp [Value.pyTruthy, Value.key, keyTruthy]
  | text s => rfl

/-- Truthiness only depends on the `==`-class of a value. -/
theorem pyTruthy_of_pyEq {a b : Value} (h : a.pyEq b = true) :
    a.pyTruthy = b.pyTruthy := by
  rw [pyEq_key] at h
  rw [pyTruthy_key, pyTruthy_key, h]

/-! ## Dictionary lemmas -/

section DictLemmas

variable {α β : Type} {eq : α → α → Bool}

theorem dGet_dSet
    (hsym : ∀ a b, eq a b = eq b a)
    (htr : ∀ a b c, eq a b = true → eq b c = true → eq a c = true)
    (d : List (α × β)) (k k' : α) (v : β) :
    dGet eq (dSet eq d k v) k' =
      if eq k k' then some v else dGet eq d k' := by
  induction d with
  | nil =>
    cases h : eq k k' <;> simp [dSet, dGet, h]
  | cons p rest ih =>
    obtain ⟨k0, v0⟩ := p
    cases h0 : eq k0 k with
    | true =>
      cases h1 : eq k0 k' with
      | true =>
        have hkk : eq k k' = true := htr k k0 k' (by rw [hsym]; exact h0) h1
        simp [dSet, h0, dGet, h1, hkk]
      | false =>
        have hkk : eq k k' = false := by
          cases h : eq k k' with
          | true => exact absurd (htr k0 k k' h0 h) (by simp [h1])
          | false => rfl
        simp [dSet, h0, dGet, h1, hkk]
    | false =>
      cases h1 : eq k0 k' with
      | true =>
        have hkk : eq k k' = false := by
          cases h : eq k k' with
          | true =>
            exact absurd (htr k0 k' k h1 (by rw [hsym]; exact h))
              (by simp [h0])
          | false => rfl
        simp [dSet, h0, dGet, h1, hkk]
      | false =>
        simp [dSet, h0, dGet, h1, ih]

theorem dHas_dSet
    (hsym : ∀ a b, eq a b = eq b a)
    (htr : ∀ a b c, eq a b = true → eq b c = true → eq a c = true)
    (d : List (α × β)) (k k' : α) (v : β) :
    dHas eq (dSet eq d k v) k' =
      (eq k k' || dHas eq d k') := by
  simp only [dHas, dGet_dSet hsym htr]
  cases h : eq k k' <;> simp [h]

theorem dGet_mem (d : List (α × β)) (k : α) (v : β)
    (h : dGet eq d k = some v) : ∃ k', (k', v) ∈ d ∧ eq k' k = true := by
  induction d with
  | nil => simp [dGet] at h
  | cons p rest ih =>
    obtain ⟨k0, v0⟩ := p
    by_cases h0 : eq k0 k = true
    · simp [dGet, h0] at h
      exact ⟨k0, by simp [h], h0⟩
    · simp [dGet, h0] at h
      obtain ⟨k', hmem, hk'⟩ := ih h
      exact ⟨k', by simp [hmem], hk'⟩

theorem dKeys_dSet (d : List (α × β)) (k : α) (v : β) :
    dKeys (dSet eq d k v) =
      if dHas eq d k then dKeys d else dKeys d ++ [k] := by
  induction d with
  | nil => simp [dSet, dKeys, dHas, dGet]
  | cons p rest ih =>
    obtain ⟨k0, v0⟩ := p
    cases h0 : eq k0 k with
    | true => simp [dSet, h0, dKeys, dHas, dGet]
    | false =>
      simp only [dSet, h0, Bool.false_eq_true, if_false, dKeys,
        List.map_cons, dHas, dGet]
      have ih' := ih
      simp only [dKeys, dHas] at ih'
      rw [ih']
      cases h : (dGet eq rest k).isSome <;> simp [h]

theorem dHas_of_mem_keys (href : ∀ a, eq a a = true)
    (d : List (α × β)) (k : α)
    (h : k ∈ dKeys d) : dHas eq d k = true := by
  induction d with
  | nil => simp [dKeys] at h
  | cons p rest ih =>
    obtain ⟨k0, v0⟩ := p
    simp only [dKeys, List.map_cons, List.mem_cons] at h
    rcases h with h | h
    · subst h; simp [dHas, dGet, href]
    · cases h0 : eq k0 k
      · have := ih (by simpa [dKeys] using h)
        simpa [dHas, dGet, h0] using this
      · simp [dHas, dGet, h0]

theorem nodup_dKeys_dSet (href : ∀ a, eq a a = true)
    (d : List (α × β)) (k : α) (v : β)
    (h : (dKeys d).Nodup) : (dKeys (dSet eq d k v)).Nodup := by
  rw [dKeys_dSet]
  cases hh : dHas eq d k with
  | true => simpa using h
  | false =>
    simp only [Bool.false_eq_true, if_false]
    have : k ∉ dKeys d := fun hk => by
      rw [dHas_of_mem_keys href d k hk] at hh; cases hh
    simp [List.nodup_append, h, this]

end DictLemmas

/-- Specialization: string-keyed dict lookup after update. -/
theorem dGet_dSet_str {β : Type} (d : List (String × β)) (k k' : String)
    (v : β) :
    dGet strEq (dSet strEq d k v) k' =
      if k = k' then some v else dGet strEq d k' := by
  rw [dGet_dSet strEq_symm strEq_trans]
  by_cases h : k = k' <;> simp [strEq, h]

/-- Specialization: value-keyed (Python `==`) dict lookup after
update. -/
theorem dGet_dSet_py {β : Type} (d : List (Value × β)) (k k' : Value)
    (v : β) :
    dGet Value.pyEq (dSet Value.pyEq d k v) k' =
      if k.pyEq k' then some v else dGet Value.pyEq d k' := by
  rw [dGet_dSet pyEq_symm pyEq_trans]

/-! ## Claim C1 — Null comparison semantics in predicates -/

/-- C1 counterexample: three concrete evaluations where a comparison
involving `Null` *is* satisfied, contradicting the claim that every
comparison involving `Null` yields false: `c != NULL` matches a row
with `c = 3`; `c != 5` matches a row with `c = Null`; and the plain
equality `c = NULL` matches a row with `c = Null`. -/
theorem claim_C1_counterexample :
    matchesWhereClause [("c", Value.int 3)]
      [("c", Cond.ops [("!=", Value.null)])] = .ok true ∧
    matchesWhereClause [("c", Value.null)]
      [("c", Cond.ops [("!=", Value.int 5)])] = .ok true ∧
    matchesWhereClause [("c", Value.null)]
      [("c", Cond.lit Value.null)] = .ok true := by
  exact ⟨by decide, by decide, by decide⟩

/-- C1 (amended): in both predicate matchers, a `Null` row value fails
plain-literal equality and operator-keyed `=` against non-`Null`
literals and fails every ordering operator; however `!=` is satisfied
by a `Null` row value whenever the literal is not `Null`, a `Null`
literal under plain or `=` conjuncts matches exactly the rows whose
value is `Null`, and an ordering comparison against a `Null` literal
raises a `TypeError` for non-`Null` row values instead of being false.
-/
theorem claim_C1 (c : String) (w rv : Value) (a : Int) :
    (matchesWhereClause [(c, rv)] [(c, .lit w)] = .ok (rv.pyEq w)) ∧
    (matchesWhereClause [(c, rv)] [(c, .ops [("=", w)])] = .ok (rv.pyEq w)) ∧
    (matchesWhereClause [(c, rv)] [(c, .ops [("!=", w)])] =
      .ok (!rv.pyEq w)) ∧
    (matchesWhereClause [(c, .null)] [(c, .ops [(">", w)])] = .ok false) ∧
    (matchesWhereClause [(c, .null)] [(c, .ops [("<", w)])] = .ok false) ∧
    (matchesWhereClause [(c, .null)] [(c, .ops [(">=", w)])] = .ok false) ∧
    (matchesWhereClause [(c, .null)] [(c, .ops [("<=", w)])] = .ok false) ∧
    (matchesWhereClause [(c, .int a)] [(c, .ops [(">", .null)])] =
      .error "\x27<=\x27 not supported between instances of \x27int\x27 and \x27NoneType\x27") ∧
    (matchesWhereClauseJoin [(c, rv)] [(c, .lit w)] = .ok (rv.pyEq w)) ∧
    (matchesWhereClauseJoin [(c, rv)] [(c, .ops [("!=", w)])] =
      .ok (!rv.pyEq w)) ∧
    (matchesWhereClauseJoin [(c, .null)] [(c, .ops [(">", w)])] =
      .ok false) := by
  have hrow : rowGet [(c, rv)] c = some rv := by
    simp [rowGet, dGet, strEq]
  have hrowN : rowGet [(c, Value.null)] c = some Value.null := by
    simp [rowGet, dGet, strEq]
  have hrowI : rowGet [(c, Value.int a)] c = some (Value.int a) := by
    simp [rowGet, dGet, strEq]
  have hres : resolveJoinVal [(c, rv)] c = rv := by
    simp [resolveJoinVal, dGet, strEq]
  have hresN : resolveJoinVal [(c, Value.null)] c = Value.null := by
    simp [resolveJoinVal, dGet, strEq]
  refine ⟨?_, ?_, ?_, ?_, ?_, ?_, ?_, ?_, ?_, ?_, ?_⟩
  · cases h : rv.pyEq w <;>
      simp [matchesWhereClause, hrow, h, pure, Except.pure]
  · cases h : rv.pyEq w <;>
      simp [matchesWhereClause, condOpsCheck, hrow, h, pure, Except.pure,
        bind, Except.bind]
  · cases h : rv.pyEq w <;>
      simp [matchesWhereClause, condOpsCheck, hrow, h, pure, Except.pure,
        bind, Except.bind]
  · simp [matchesWhereClause, condOpsCheck, hrowN, pure, Except.pure,
      bind, Except.bind]
  · simp [matchesWhereClause, condOpsCheck, hrowN, pure, Except.pure,
      bind, Except.bind]
  · simp [matchesWhereClause, condOpsCheck, hrowN, pure, Except.pure,
      bind, Except.bind]
  · simp [matchesWhereClause, condOpsCheck, hrowN, pure, Except.pure,
      bind, Except.bind]
  · simp [matchesWhereClause, condOpsCheck, hrowI, pyCmpE, Value.pyCmp,
      Value.numVal, typeName, pure, Except.pure, bind, Except.bind, throw,
      throwThe, MonadExceptOf.throw]
    decide
  · cases h : rv.pyEq w <;>
      simp [matchesWhereClauseJoin, hres, h, pure, Except.pure]
  · cases h : rv.pyEq w <;>
      simp [matchesWhereClauseJoin, condOpsCheck, hres, h, pure,
        Except.pure, bind, Except.bind]
  · simp [matchesWhereClauseJoin, condOpsCheck, hresN, pure, Except.pure,
      bind, Except.bind]

/-! ## Claim C10 — `update_rows` is not atomic on error -/

/-- C10: on `esW` (rows `(1,1)`, `(2,2)`), updating `x = 9, id = 3`
under a predicate matching both rows fails on the second row's `id`
assignment (the first row already holds `id = 3`); the error leaves the
first row fully updated and the second row's earlier `x := 9`
assignment applied, the `id` index reflecting the partial work, while
the persisted snapshot still holds the pre-statement state. -/
theorem claim_C10 :
    esWUpd.1 = .error "Constraint violation: 3 already exists" ∧
    (dGet strEq esWUpd.2.mem.tables "w").map Table.rows =
      some [[("id", Value.int 3), ("x", Value.int 9),
             ("_row_id", Value.int 0)],
            [("id", Value.int 2), ("x", Value.int 9),
             ("_row_id", Value.int 1)]] ∧
    (dGet strEq esWUpd.2.mem.indexes "w") =
      some [("id", [(Value.int 2, 1), (Value.int 3, 0)])] ∧
    esWUpd.2.disk = esW.disk ∧
    esW.mem = esW.disk ∧
    esWUpd.2.mem ≠ esWUpd.2.disk := by
  refine ⟨by decide, by decide, by decide, by decide, by decide, by decide⟩

/-! ## Claim C7 — `_row_id` and SELECT projection -/

theorem dGet_stripInternal (row : Row) (k : String)
    (h : pyStartsWith k "_") : dGet strEq (stripInternal row) k = none := by
  induction row with
  | nil => rfl
  | cons p rest ih =>
    obtain ⟨k0, v0⟩ := p
    by_cases h0 : pyStartsWith k0 "_"
    · simpa [stripInternal, h0] using ih
    · have hne : k0 ≠ k := fun he => h0 (he ▸ h)
      simpa [stripInternal, h0, dGet, strEq, hne] using ih

theorem dGet_projectRow_aux (row : Row) (cols : List String)
    (acc : Row) (c : String) :
    dGet strEq (cols.foldl (fun acc c =>
      match dGet strEq row c with
      | some v => dSet strEq acc c v
      | none => acc) acc) c =
    if c ∈ cols ∧ (dGet strEq row c).isSome then dGet strEq row c
    else dGet strEq acc c := by
  induction cols generalizing acc with
  | nil => simp
  | cons c0 cols' ih =>
    simp only [List.foldl_cons]
    rw [ih]
    by_cases hA : c ∈ cols' ∧ (dGet strEq row c).isSome = true
    · simp [hA, List.mem_cons, hA.1, hA.2]
    · rw [if_neg hA]
      by_cases hc0 : c = c0
      · subst hc0
        cases hv : dGet strEq row c with
        | some v =>
          simp only [hv]
          rw [dGet_dSet_str, if_pos rfl]
          simp [List.mem_cons, hv]
        | none =>
          simp only [hv]
          rw [if_neg (by simp)]
      · have hB : ¬ (c ∈ c0 :: cols' ∧ (dGet strEq row c).isSome = true) := by
          intro hx
          rcases List.mem_cons.mp hx.1 with h1 | h1
          · exact hc0 h1
          · exact hA ⟨h1, hx.2⟩
        rw [if_neg hB]
        cases hv : dGet strEq row c0 with
        | some v =>
          simp only [hv]
          rw [dGet_dSet_str, if_neg (fun he => hc0 he.symm)]
        | none => simp only [hv]

/-- The explicit-projection loop copies a requested present field and
produces nothing for other names. -/
theorem dGet_projectRow (cols : List String) (row : Row) (c : String) :
    dGet strEq (projectRow cols row) c =
      if c ∈ cols then dGet strEq row c else none := by
  rw [projectRow, dGet_projectRow_aux]
  by_cases hmem : c ∈ cols
  · cases hv : dGet strEq row c <;> simp [hmem, hv, dGet]
  · simp [hmem, dGet]

/-- C7 counterexample: on the one-row `categories` table,
`SELECT _row_id FROM categories` returns a row that *does* contain the
internal `_row_id` field, contradicting the claim that `_row_id` is
never present in SELECT output even when named explicitly. -/
theorem claim_C7_counterexample :
    (execute esCat "SELECT _row_id FROM categories").1.rows =
      some [[("_row_id", Value.int 0)]] := by
  decide

/-- C7 (amended): a `*` projection never emits `_row_id` (it strips
every field whose name starts with an underscore), and an explicit
projection list emits `_row_id` only when that name is itself
requested: if `_row_id` is not among the requested names, no output row
contains it. -/
theorem claim_C7 (es : EngineState) (tn : String) (wc : Option WhereClause)
    (cols : List String) :
    (∀ rs, (execSelect es tn ["*"] wc).1.rows = some rs →
      ∀ r ∈ rs, rowGet r "_row_id" = none) ∧
    ("_row_id" ∉ cols →
      ∀ rs, (execSelect es tn cols wc).1.rows = some rs →
        ∀ r ∈ rs, rowGet r "_row_id" = none) := by
  constructor
  · intro rs hrs r hr
    cases hsel : selectRows es tn wc with
    | error e => simp [execSelect, hsel, failRes] at hrs
    | ok rows =>
      simp [execSelect, hsel] at hrs
      subst hrs
      obtain ⟨r0, _, hr0⟩ := List.mem_map.mp hr
      subst hr0
      exact dGet_stripInternal r0 "_row_id" (by decide)
  · intro hnotin rs hrs r hr
    cases hsel : selectRows es tn wc with
    | error e => simp [execSelect, hsel, failRes] at hrs
    | ok rows =>
      by_cases hstar : cols = ["*"]
      · subst hstar
        simp [execSelect, hsel] at hrs
        subst hrs
        obtain ⟨r0, _, hr0⟩ := List.mem_map.mp hr
        subst hr0
        exact dGet_stripInternal r0 "_row_id" (by decide)
      · simp [execSelect, hsel, hstar] at hrs
        subst hrs
        obtain ⟨r0, _, hr0⟩ := List.mem_map.mp hr
        subst hr0
        rw [rowGet, dGet_projectRow]
        simp [hnotin]

/-- C7 witness: instantiating the amended claim on the `categories`
scenario with projection `[name]`. -/
theorem claim_C7_witness :
    ∀ r ∈ ([[("name", Value.text "Books")]] : List Row),
      rowGet r "_row_id" = none :=
  (claim_C7 esCat "categories" none ["name"]).2 (by decide)
    [[("name", Value.text "Books")]] (by decide)

/-! ## Parser result-shape lemmas -/

theorem parseCreateTable_shape {q : List Char} {p : Plan}
    (h : parseCreateTable q = .ok p) :
    ∃ t cols, p = .createTable t cols := by
  unfold parseCreateTable at h
  split at h
  · simp [throw, throwThe, MonadExceptOf.throw] at h
  · simp only [bind, Except.bind] at h
    split at h
    · simp at h
    · simp [pure, Except.pure] at h
      exact ⟨_, _, h.symm⟩

theorem parseInsert_shape {q : List Char} {p : Plan}
    (h : parseInsert q = .ok p) :
    ∃ t ic vs, p = .insert t ic vs := by
  unfold parseInsert at h
  split at h
  · simp [throw, throwThe, MonadExceptOf.throw] at h
  · rename_i w afterName
    split at h
    · simp [pure, Except.pure] at h
      exact ⟨_, _, _, h.symm⟩
    · split at h
      · simp [pure, Except.pure] at h
        exact ⟨_, _, _, h.symm⟩
      · simp [throw, throwThe, MonadExceptOf.throw] at h

theorem parseSelectBasic_shape {q : List Char} {p : Plan}
    (h : parseSelectBasic q = .ok p) :
    ∃ t cols wc, p = .select t cols wc := by
  unfold parseSelectBasic at h
  split at h
  · simp [throw, throwThe, MonadExceptOf.throw] at h
  · simp [pure, Except.pure] at h
    exact ⟨_, _, _, h.symm⟩

theorem parseSelectWithJoin_shape {q : List Char} {p : Plan}
    (h : parseSelectWithJoin q = .ok p) :
    ∃ t1 t2 l r cols wc, p = .selectJoin t1 t2 l r cols wc := by
  unfold parseSelectWithJoin at h
  split at h
  · simp [throw, throwThe, MonadExceptOf.throw] at h
  · split at h
    · simp at h
    · simp [pure, Except.pure] at h
      exact ⟨_, _, _, _, _, _, h.symm⟩

theorem parseSelect_shape {q : List Char} {p : Plan}
    (h : parseSelect q = .ok p) :
    (∃ t cols wc, p = .select t cols wc) ∨
    (∃ t1 t2 l r cols wc, p = .selectJoin t1 t2 l r cols wc) := by
  unfold parseSelect at h
  split_ifs at h
  · exact Or.inr (parseSelectWithJoin_shape h)
  · exact Or.inl (parseSelectBasic_shape h)

theorem parseUpdate_shape {q : List Char} {p : Plan}
    (h : parseUpdate q = .ok p) :
    ∃ t, p = .update t [] none := by
  unfold parseUpdate at h
  split at h
  · simp [throw, throwThe, MonadExceptOf.throw] at h
  · rename_i w
    have hset : parseSetClause ([] : List Char) = .ok [] := by decide
    simp [hset, bind, Except.bind, pure, Except.pure] at h
    exact ⟨_, h.symm⟩

theorem parseDelete_shape {q : List Char} {p : Plan}
    (h : parseDelete q = .ok p) :
    ∃ t wc, p = .delete t wc := by
  unfold parseDelete at h
  split at h
  · simp [throw, throwThe, MonadExceptOf.throw] at h
  · split at h
    · split_ifs at h
      simp [pure, Except.pure] at h
      exact ⟨_, _, h.symm⟩
    · simp [throw, throwThe, MonadExceptOf.throw] at h

theorem parseShow_shape {q : List Char} {p : Plan}
    (h : parseShow q = .ok p) : p = .showTables := by
  unfold parseShow at h
  split_ifs at h
  simp [pure, Except.pure] at h
  exact h.symm

theorem parseDescribe_shape {q : List Char} {p : Plan}
    (h : parseDescribe q = .ok p) : ∃ t, p = .describe t := by
  unfold parseDescribe at h
  split at h
  · simp [throw, throwThe, MonadExceptOf.throw] at h
  · simp [pure, Except.pure] at h
    exact ⟨_, h.symm⟩

/-- Any statement that parses to an Update plan has an empty assignment
dict and no `where` entry (the lazy, unanchored UPDATE regex never
captures either group). -/
theorem parse_update_inv {q t : String} {ups : List (String × Value)}
    {wh : Option WhereClause} (h : parse q = .ok (.update t ups wh)) :
    ups = [] ∧ wh = none := by
  unfold parse parseDispatch at h
  split at h
  · simp [throw, throwThe, MonadExceptOf.throw] at h
  · unfold parseByKeyword at h
    split_ifs at h
    · obtain ⟨_, _, hp⟩ := parseCreateTable_shape h; simp at hp
    · obtain ⟨_, _, _, hp⟩ := parseInsert_shape h; simp at hp
    · rcases parseSelect_shape h with ⟨_, _, _, hp⟩ | ⟨_, _, _, _, _, _, hp⟩ <;>
        simp at hp
    · obtain ⟨t', hp⟩ := parseUpdate_shape h
      rw [Plan.update.injEq] at hp
      exact ⟨hp.2.1, hp.2.2⟩
    · obtain ⟨_, _, hp⟩ := parseDelete_shape h; simp at hp
    · have hp := parseShow_shape h; simp at hp
    · obtain ⟨_, hp⟩ := parseDescribe_shape h; simp at hp

/-- Executing any statement that parses as UPDATE fails with the safety
error and leaves the state untouched. -/
theorem execute_update_rejected (es : EngineState) {q t : String}
    {ups : List (String × Value)} {wh : Option WhereClause}
    (h : parse q = .ok (.update t ups wh)) :
    execute es q =
      (failRes "UPDATE without WHERE clause not allowed for safety", es) := by
  obtain ⟨hu, hw⟩ := parse_update_inv h
  subst hu hw
  simp [execute, h, execUpdate]

/-! ## Claim C2 — parser-level rejection of UPDATE without WHERE -/

/-- C2 counterexample: `UPDATE t SET x = 1` has no WHERE clause, yet
the parser succeeds, returning an Update plan (with an empty assignment
dict and no predicate) instead of rejecting the statement. -/
theorem claim_C2_counterexample :
    parse "UPDATE t SET x = 1" = .ok (Plan.update "t" [] none) := by
  decide

/-- C2 (amended): the parser does not reject UPDATE without WHERE; it
accepts every well-formed `UPDATE <name> SET …` statement and returns
an Update plan with no predicate (and, because the regex never captures
the SET text either, an empty assignment dict) — whether or not the
statement carried a WHERE clause.  Unqualified UPDATE is rejected only
at the executor layer, which consequently rejects every UPDATE. -/
theorem claim_C2 (es : EngineState) (q t : String)
    (ups : List (String × Value)) (wh : Option WhereClause)
    (h : parse q = .ok (.update t ups wh)) :
    ups = [] ∧ wh = none ∧
    execute es q =
      (failRes "UPDATE without WHERE clause not allowed for safety", es) := by
  obtain ⟨hu, hw⟩ := parse_update_inv h
  exact ⟨hu, hw, execute_update_rejected es h⟩

/-- C2 witness: the amended claim at `UPDATE t SET x = 2`. -/
theorem claim_C2_witness :
    ([] : List (String × Value)) = [] ∧
    (none : Option WhereClause) = none ∧
    execute EngineState.init "UPDATE t SET x = 2" =
      (failRes "UPDATE without WHERE clause not allowed for safety",
       EngineState.init) :=
  claim_C2 EngineState.init "UPDATE t SET x = 2" "t" [] none (by decide)

/-! ## Claim C8 — explicit projection copies exactly the present fields -/

/-- C8: a single-table SELECT with an explicit projection list never
fails on unknown names: it returns success, mapping each stored row
through the projection loop, and the projected row holds a field for a
name iff the name was requested and present in the stored row (with the
stored value). -/
theorem claim_C8 (es : EngineState) (tn : String) (cols : List String)
    (wc : Option WhereClause) (rows : List Row)
    (hne : cols ≠ ["*"]) (hsel : selectRows es tn wc = .ok rows) :
    execSelect es tn cols wc =
      ({ success := true, rows := some (rows.map (projectRow cols)),
         count := some (rows.map (projectRow cols)).length }, es) ∧
    ∀ r c, dGet strEq (projectRow cols r) c =
      if c ∈ cols then dGet strEq r c else none := by
  constructor
  · simp [execSelect, hsel, hne]
  · intro r c
    exact dGet_projectRow cols r c

/-- C8 witness: projecting `[name, missing]` on the one-row
`categories` table. -/
theorem claim_C8_witness :
    execSelect esCat "categories" ["name", "missing"] none =
      ({ success := true,
         rows := some (([[("id", Value.int 1), ("name", Value.text "Books"),
           ("_row_id", Value.int 0)]] : List Row).map
             (projectRow ["name", "missing"])),
         count := some (([[("id", Value.int 1), ("name", Value.text "Books"),
           ("_row_id", Value.int 0)]] : List Row).map
             (projectRow ["name", "missing"])).length }, esCat) ∧
    ∀ r c, dGet strEq (projectRow ["name", "missing"] r) c =
      if c ∈ ["name", "missing"] then dGet strEq r c else none :=
  claim_C8 esCat "categories" ["name", "missing"] none
    [[("id", Value.int 1), ("name", Value.text "Books"),
      ("_row_id", Value.int 0)]] (by decide) (by decide)

/-! ## Claim C9 — operator-free WHERE text -/

theorem parseWhereScan_none (conds : WhereClause) (part : List Char)
    (ops : List (List Char)) (h : ∀ op ∈ ops, findSub part op = none) :
    parseWhereScan conds part ops = conds := by
  induction ops with
  | nil => rfl
  | cons op more ih =>
    have h0 := h op (by simp)
    rw [parseWhereScan, h0]
    exact ih (fun o ho => h o (by simp [ho]))

/-- A WHERE text none of whose AND-separated conjuncts contains an
operator parses to the empty predicate, silently. -/
theorem parseWhereClause_empty (l : List Char)
    (h : ∀ part ∈ splitOnAnd l, ∀ op ∈ opList,
      findSub (pyStrip part) op = none) :
    parseWhereClause l = [] := by
  unfold parseWhereClause
  have main : ∀ (parts : List (List Char)) (acc : WhereClause),
      (∀ part ∈ parts, ∀ op ∈ opList, findSub (pyStrip part) op = none) →
      parts.foldl parseWherePart acc = acc := by
    intro parts
    induction parts with
    | nil => intro acc _; rfl
    | cons p ps ih =>
      intro acc hps
      simp only [List.foldl_cons]
      have hstep : parseWherePart acc p = acc :=
        parseWhereScan_none acc (pyStrip p) opList (hps p (by simp))
      rw [hstep]
      exact ih acc (fun part hp => hps part (by simp [hp]))
  exact main (splitOnAnd l) [] h

theorem collectMatches_empty (i : Nat) (rows : List Row) :
    collectMatches [] i rows = .ok (List.range' i rows.length) := by
  induction rows generalizing i with
  | nil => simp [collectMatches, List.range', pure, Except.pure]
  | cons r rest ih =>
    simp [collectMatches, matchesWhereClause, ih, bind, Except.bind, pure,
      Except.pure, List.range'_succ]

theorem eraseIdx_length_eq_dropLast (rows : List Row) (m : Nat)
    (h : rows.length = m + 1) : rows.eraseIdx m = rows.dropLast := by
  rw [List.eraseIdx_eq_take_drop_succ, List.dropLast_eq_take]
  rw [h]
  simp [List.drop_eq_nil_of_le, h.le]

theorem deleteLoop_all : ∀ (n : Nat) (rows : List Row)
    (tIdx : TableIndexes), rows.length = n →
    (deleteLoop (List.range n).reverse rows tIdx).1 = [] := by
  intro n
  induction n with
  | zero =>
    intro rows tIdx h
    rw [List.length_eq_zero] at h
    subst h
    rfl
  | succ m ih =>
    intro rows tIdx h
    rw [List.range_succ, List.reverse_append, List.reverse_singleton]
    simp only [List.singleton_append, deleteLoop]
    rw [eraseIdx_length_eq_dropLast rows m h]
    exact ih _ _ (by rw [List.length_dropLast, h]; rfl)

/-- Deleting with the empty predicate matches every row: the call
succeeds with the full row count and the table is left empty. -/
theorem deleteRows_empty_wc (es : EngineState) (tn : String) (tbl : Table)
    (tIdx : TableIndexes)
    (htbl : dGet strEq es.mem.tables tn = some tbl)
    (hidx : dGet strEq es.mem.indexes tn = some tIdx) :
    (deleteRows es tn []).1 = .ok tbl.rows.length ∧
    (dGet strEq (deleteRows es tn []).2.mem.tables tn).map Table.rows =
      some [] := by
  have hdel : (deleteLoop (List.range' 0 tbl.rows.length).reverse
      tbl.rows tIdx).1 = [] := by
    rw [← List.range_eq_range']
    exact deleteLoop_all tbl.rows.length tbl.rows tIdx rfl
  unfold deleteRows
  rw [htbl]
  dsimp only
  rw [collectMatches_empty, hidx]
  dsimp only
  constructor
  · simp [pure, Except.pure, List.length_range']
  · simp only [saveTables]
    rw [hdel, dGet_dSet_str]
    simp [rebuildIndexes, rebuildGo]

/-- C9 counterexample: on the two-row table `w`, the statement
`UPDATE w SET x = 99 WHERE nonsense` — a syntactically supplied,
operator-free WHERE — updates nothing: the whole statement fails with
the safety error and the state is unchanged, because the UPDATE regex
never hands the parser a WHERE clause at all. -/
theorem claim_C9_counterexample :
    (execute esW "UPDATE w SET x = 99 WHERE nonsense").1 =
      failRes "UPDATE without WHERE clause not allowed for safety" ∧
    (execute esW "UPDATE w SET x = 99 WHERE nonsense").2 = esW := by
  exact ⟨by decide, by decide⟩

/-- C9 (amended): an operator-free WHERE text parses to the empty
predicate without error, and the empty predicate matches every row, so
`DELETE FROM t WHERE <operator-free text>` deletes every row of `t`;
but the UPDATE half fails: the parser never attaches a predicate to any
UPDATE (the regex never captures the WHERE group), so every UPDATE —
with or without an operator-free WHERE — is rejected by the executor
with the safety error and updates nothing. -/
theorem claim_C9 :
    (∀ l : List Char, (∀ part ∈ splitOnAnd l, ∀ op ∈ opList,
        findSub (pyStrip part) op = none) → parseWhereClause l = []) ∧
    (∀ row : Row, matchesWhereClause row [] = .ok true) ∧
    (∀ (es : EngineState) (tn : String) (tbl : Table)
        (tIdx : TableIndexes),
      dGet strEq es.mem.tables tn = some tbl →
      dGet strEq es.mem.indexes tn = some tIdx →
      (deleteRows es tn []).1 = .ok tbl.rows.length ∧
      (dGet strEq (deleteRows es tn []).2.mem.tables tn).map Table.rows =
        some []) ∧
    (∀ (es : EngineState) (q t : String) (ups : List (String × Value))
        (wh : Option WhereClause),
      parse q = .ok (.update t ups wh) →
      (execute es q).1.success = false ∧ (execute es q).2 = es) := by
  refine ⟨parseWhereClause_empty, fun _ => rfl,
    deleteRows_empty_wc, ?_⟩
  intro es q t ups wh h
  rw [execute_update_rejected es h]
  exact ⟨rfl, rfl⟩

/-- C9 witness: the amended claim instantiated on concrete inputs — an
operator-free WHERE text, the two-row table `w` emptied by
`deleteRows`, and a rejected UPDATE. -/
theorem claim_C9_witness :
    parseWhereClause "garbage text".toList = [] ∧
    matchesWhereClause [] [] = .ok true ∧
    ((deleteRows esW "w" []).1 = .ok 2 ∧
      (dGet strEq (deleteRows esW "w" []).2.mem.tables "w").map Table.rows =
        some []) ∧
    ((execute esW "UPDATE w SET x = 1 WHERE junk").1.success = false ∧
      (execute esW "UPDATE w SET x = 1 WHERE junk").2 = esW) := by
  have h := claim_C9
  refine ⟨h.1 _ (by decide), h.2.1 [], ?_, ?_⟩
  · have h3 := h.2.2.1 esW "w"
      { columns := [("id", ⟨"INT", true, true, false⟩),
                    ("x", ⟨"INT", false, false, false⟩)],
        rows := [[("id", Value.int 1), ("x", Value.int 1),
                  ("_row_id", Value.int 0)],
                 [("id", Value.int 2), ("x", Value.int 2),
                  ("_row_id", Value.int 1)]],
        primary_key := some "id",
        unique_keys := [] }
      [("id", [(Value.int 1, 0), (Value.int 2, 1)])]
      (by decide) (by decide)
    exact h3
  · exact h.2.2.2 esW "UPDATE w SET x = 1 WHERE junk" "w" [] none (by decide)

/-! ## Index and uniqueness lemmas (for C3, C4, C6) -/

theorem buildIdx_append (c : String) (rows : List Row) (r : Row) :
    ∀ (i : Nat) (m : IndexMap),
    buildIdx c i (rows ++ [r]) m =
      if colVal r c ≠ .null then
        dSet Value.pyEq (buildIdx c i rows m) (colVal r c) (i + rows.length)
      else buildIdx c i rows m := by
  induction rows with
  | nil =>
    intro i m
    by_cases h : colVal r c = Value.null <;> simp [buildIdx, h]
  | cons r0 rest ih =>
    intro i m
    simp only [List.cons_append, buildIdx, List.length_cons, List.append_eq]
    rw [ih]
    have harith : i + 1 + rest.length = i + (rest.length + 1) := by omega
    rw [harith]

theorem dHas_buildIdx (c : String) (rows : List Row) (v : Value) :
    ∀ (i : Nat) (m : IndexMap),
    dHas Value.pyEq (buildIdx c i rows m) v =
      (dHas Value.pyEq m v ||
        rows.any (fun r => colVal r c ≠ Value.null && (colVal r c).pyEq v)) := by
  induction rows with
  | nil => intro i m; simp [buildIdx]
  | cons r0 rest ih =>
    intro i m
    simp only [buildIdx, List.any_cons]
    rw [ih]
    by_cases h0 : colVal r0 c = Value.null
    · simp [h0]
    · simp only [h0, ne_eq, not_false_iff, if_true]
      rw [dHas_dSet pyEq_symm pyEq_trans]
      cases h1 : (colVal r0 c).pyEq v <;>
        cases h2 : dHas Value.pyEq m v <;> simp [h0, h1, h2]

theorem noDupCol_append (c : String) (rows : List Row) (r : Row)
    (hnd : noDupCol c rows = true)
    (hnew : colVal r c = .null ∨
      ∀ r2 ∈ rows, (colVal r2 c).pyEq (colVal r c) = false) :
    noDupCol c (rows ++ [r]) = true := by
  induction rows with
  | nil => simp [noDupCol]
  | cons r0 rest ih =>
    simp only [noDupCol, Bool.and_eq_true] at hnd
    have hnew' : colVal r c = .null ∨
        ∀ r2 ∈ rest, (colVal r2 c).pyEq (colVal r c) = false := by
      rcases hnew with h | h
      · exact Or.inl h
      · exact Or.inr (fun r2 hr2 => h r2 (by simp [hr2]))
    have hrec := ih hnd.2 hnew'
    simp only [List.cons_append, noDupCol, Bool.and_eq_true]
    refine ⟨?_, hrec⟩
    by_cases hr0 : colVal r0 c = Value.null
    · simp [hr0]
    · have hall : rest.all
          (fun r2 => !(colVal r2 c).pyEq (colVal r0 c)) = true := by
        have h1 := hnd.1
        rw [Bool.or_eq_true] at h1
        rcases h1 with h0 | h0
        · rw [beq_iff_eq] at h0; exact absurd h0 hr0
        · exact h0
      have hlast : (colVal r c).pyEq (colVal r0 c) = false := by
        rcases hnew with h | h
        · rw [h]
          cases hq : (Value.null).pyEq (colVal r0 c)
          · rfl
          · rw [pyEq_symm, pyEq_null_iff] at hq
            exact absurd hq hr0
        · have hthis := h r0 (by simp)
          rw [pyEq_symm] at hthis
          exact hthis
      rw [Bool.or_eq_true]
      right
      simp [List.all_append, hall, hlast]

theorem noDupTruthy_append (c : String) (rows : List Row) (r : Row)
    (hnd : noDupTruthy c rows = true)
    (hnew : (colVal r c).pyTruthy = false ∨
      ∀ r2 ∈ rows, (colVal r2 c).pyEq (colVal r c) = false) :
    noDupTruthy c (rows ++ [r]) = true := by
  induction rows with
  | nil => simp [noDupTruthy]
  | cons r0 rest ih =>
    simp only [noDupTruthy, Bool.and_eq_true] at hnd
    have hnew' : (colVal r c).pyTruthy = false ∨
        ∀ r2 ∈ rest, (colVal r2 c).pyEq (colVal r c) = false := by
      rcases hnew with h | h
      · exact Or.inl h
      · exact Or.inr (fun r2 hr2 => h r2 (by simp [hr2]))
    have hrec := ih hnd.2 hnew'
    simp only [List.cons_append, noDupTruthy, Bool.and_eq_true]
    refine ⟨?_, hrec⟩
    by_cases hr0 : (colVal r0 c).pyTruthy = false
    · simp [hr0]
    · have hall : rest.all
          (fun r2 => !(colVal r2 c).pyEq (colVal r0 c)) = true := by
        have h1 := hnd.1
        rw [Bool.or_eq_true] at h1
        rcases h1 with h0 | h0
        · simp only [Bool.not_eq_true'] at h0
          exact absurd h0 hr0
        · exact h0
      have hlast : (colVal r c).pyEq (colVal r0 c) = false := by
        rcases hnew with h | h
        · cases hq : (colVal r c).pyEq (colVal r0 c)
          · rfl
          · have := pyTruthy_of_pyEq hq
            rw [h] at this
            exact absurd this.symm hr0
        · have hthis := h r0 (by simp)
          rw [pyEq_symm] at hthis
          exact hthis
      rw [Bool.or_eq_true]
      right
      simp [List.all_append, hall, hlast]

theorem noDupTruthy_of_noDupCol (c : String) (rows : List Row)
    (h : noDupCol c rows = true) : noDupTruthy c rows = true := by
  induction rows with
  | nil => rfl
  | cons r0 rest ih =>
    simp only [noDupCol, Bool.and_eq_true] at h
    simp only [noDupTruthy, Bool.and_eq_true]
    refine ⟨?_, ih h.2⟩
    have h1 := h.1
    rw [Bool.or_eq_true] at h1
    rcases h1 with h0 | h0
    · rw [beq_iff_eq] at h0
      simp [h0, Value.pyTruthy]
    · simp [h0]

theorem noDupCol_sublist (c : String) {rows' rows : List Row}
    (hs : List.Sublist rows' rows) (h : noDupCol c rows = true) :
    noDupCol c rows' = true := by
  induction hs with
  | slnil => rfl
  | cons a hs ih =>
    simp only [noDupCol, Bool.and_eq_true] at h
    exact ih h.2
  | cons₂ a hs ih =>
    rename_i l1 l2
    simp only [noDupCol, Bool.and_eq_true] at h ⊢
    refine ⟨?_, ih h.2⟩
    have h1 := h.1
    rw [Bool.or_eq_true] at h1
    rcases h1 with h0 | h0
    · simp [h0]
    · rw [Bool.or_eq_true]
      right
      simp only [List.all_eq_true] at h0 ⊢
      exact fun r2 hr2 => h0 r2 (hs.subset hr2)

theorem noDupTruthy_sublist (c : String) {rows' rows : List Row}
    (hs : List.Sublist rows' rows) (h : noDupTruthy c rows = true) :
    noDupTruthy c rows' = true := by
  induction hs with
  | slnil => rfl
  | cons a hs ih =>
    simp only [noDupTruthy, Bool.and_eq_true] at h
    exact ih h.2
  | cons₂ a hs ih =>
    rename_i l1 l2
    simp only [noDupTruthy, Bool.and_eq_true] at h ⊢
    refine ⟨?_, ih h.2⟩
    have h1 := h.1
    rw [Bool.or_eq_true] at h1
    rcases h1 with h0 | h0
    · simp [h0]
    · rw [Bool.or_eq_true]
      right
      simp only [List.all_eq_true] at h0 ⊢
      exact fun r2 hr2 => h0 r2 (hs.subset hr2)

theorem rowIdsFrom_val (rows : List Row) :
    ∀ (i : Nat), rowIdsFrom i rows = true →
    ∀ r ∈ rows, ∃ j, i ≤ j ∧ colVal r "_row_id" = .int j := by
  induction rows with
  | nil => intro i _ r hr; simp at hr
  | cons r0 rest ih =>
    intro i h r hr
    simp only [rowIdsFrom, Bool.and_eq_true, beq_iff_eq] at h
    rcases List.mem_cons.mp hr with hr | hr
    · subst hr
      exact ⟨i, le_refl i, by simp [colVal, h.1]⟩
    · obtain ⟨j, hij, hv⟩ := ih (i + 1) h.2 r hr
      exact ⟨j, by omega, hv⟩

theorem noDupCol_of_rowIds (rows : List Row) :
    ∀ (i : Nat), rowIdsFrom i rows = true →
    noDupCol "_row_id" rows = true := by
  induction rows with
  | nil => intro i _; rfl
  | cons r0 rest ih =>
    intro i h
    simp only [rowIdsFrom, Bool.and_eq_true, beq_iff_eq] at h
    simp only [noDupCol, Bool.and_eq_true]
    refine ⟨?_, ih (i + 1) h.2⟩
    rw [Bool.or_eq_true]
    right
    simp only [List.all_eq_true]
    intro r2 hr2
    obtain ⟨j, hij, hv⟩ := rowIdsFrom_val rest (i + 1) h.2 r2 hr2
    have hr0v : colVal r0 "_row_id" = .int i := by simp [colVal, h.1]
    rw [hv, hr0v]
    simp only [Bool.not_eq_true']
    cases hq : (Value.int j).pyEq (Value.int i)
    · rfl
    · rw [pyEq_key] at hq
      simp only [Value.key, Value.PyKey.num.injEq, Int.cast_inj,
        Int.cast_injective.eq_iff] at hq
      omega

theorem rowIdsFrom_append (rows : List Row) (r : Row) :
    ∀ (i : Nat), rowIdsFrom i rows = true →
    rowGet r "_row_id" = some (.int (i + rows.length)) →
    rowIdsFrom i (rows ++ [r]) = true := by
  induction rows with
  | nil =>
    intro i _ hr
    simp only [List.nil_append, rowIdsFrom, Bool.and_eq_true, beq_iff_eq]
    exact ⟨by simpa using hr, trivial⟩
  | cons r0 rest ih =>
    intro i h hr
    simp only [rowIdsFrom, Bool.and_eq_true, beq_iff_eq] at h
    simp only [List.cons_append, rowIdsFrom, Bool.and_eq_true, beq_iff_eq]
    refine ⟨h.1, ih (i + 1) h.2 ?_⟩
    rw [hr]
    congr 1
    simp [List.length_cons]
    omega

/-! ## Dictionary, validation, renumbering and rebuild lemmas -/

theorem mem_dSet_str {β : Type} {d : List (String × β)} {k : String}
    {v : β} {p : String × β} (hp : p ∈ dSet strEq d k v) :
    p = (k, v) ∨ p ∈ d := by
  induction d with
  | nil => simpa [dSet] using hp
  | cons q rest ih =>
    obtain ⟨k0, v0⟩ := q
    by_cases h0 : k0 = k
    · subst h0
      simp only [dSet, strEq, beq_self_eq_true, if_true] at hp
      rcases List.mem_cons.mp hp with hp | hp
      · exact Or.inl (by simpa using hp)
      · exact Or.inr (by simp [hp])
    · simp only [dSet, strEq] at hp
      rw [if_neg (by simpa using h0)] at hp
      rcases List.mem_cons.mp hp with hp | hp
      · exact Or.inr (by simp [hp])
      · rcases ih hp with hh | hh
        · exact Or.inl hh
        · exact Or.inr (by simp [hh])

theorem mem_dSet_str_nodup {β : Type} {d : List (String × β)} {k : String}
    {v : β} {p : String × β} (hnd : (dKeys d).Nodup)
    (hp : p ∈ dSet strEq d k v) :
    p = (k, v) ∨ (p ∈ d ∧ p.1 ≠ k) := by
  induction d with
  | nil => exact Or.inl (by simpa [dSet] using hp)
  | cons q rest ih =>
    obtain ⟨k0, v0⟩ := q
    simp only [dKeys, List.map_cons, List.nodup_cons] at hnd
    by_cases h0 : k0 = k
    · subst h0
      simp only [dSet, strEq, beq_self_eq_true, if_true] at hp
      rcases List.mem_cons.mp hp with hp | hp
      · exact Or.inl (by simpa using hp)
      · refine Or.inr ⟨by simp [hp], ?_⟩
        intro hk
        exact hnd.1 (hk ▸ List.mem_map.mpr ⟨p, hp, rfl⟩)
    · simp only [dSet, strEq] at hp
      rw [if_neg (by simpa using h0)] at hp
      rcases List.mem_cons.mp hp with hp | hp
      · subst hp
        exact Or.inr ⟨by simp, by simpa using h0⟩
      · rcases ih hnd.2 hp with hh | hh
        · exact Or.inl hh
        · exact Or.inr ⟨by simp [hh.1], hh.2⟩

theorem dGet_of_mem_nodup {β : Type} {d : List (String × β)} {k : String}
    {v : β} (hnd : (dKeys d).Nodup) (hm : (k, v) ∈ d) :
    dGet strEq d k = some v := by
  induction d with
  | nil => simp at hm
  | cons q rest ih =>
    obtain ⟨k0, v0⟩ := q
    simp only [dKeys, List.map_cons, List.nodup_cons] at hnd
    rcases List.mem_cons.mp hm with hm | hm
    · rw [show k0 = k from congrArg Prod.fst hm.symm]
      simp [dGet, strEq, show v0 = v from congrArg Prod.snd hm.symm]
    · have hne : k0 ≠ k := by
        intro he
        exact hnd.1 (he ▸ List.mem_map.mpr ⟨(k, v), hm, rfl⟩)
      simp only [dGet, strEq]
      rw [if_neg (by simpa using hne)]
      exact ih hnd.2 hm

theorem dHas_map_fst_preserving {β : Type} (d : List (String × β))
    (f : String × β → String × β) (hf : ∀ p, (f p).1 = p.1)
    (c : String) : dHas strEq (d.map f) c = dHas strEq d c := by
  induction d with
  | nil => rfl
  | cons p rest ih =>
    simp only [List.map_cons, dHas, dGet]
    rw [show (f p).1 = p.1 from hf p]
    cases h : strEq p.1 c
    · simpa [h, dHas] using ih
    · simp [h]

theorem validateCol_ok {rd : List (String × Value)} {vr : Row}
    {p : String × ColDef} {vr' : Row}
    (h : validateCol rd vr p = .ok vr') :
    ∃ x, vr' = dSet strEq vr p.1 x := by
  simp only [validateCol] at h
  split_ifs at h with h1 h2
  · cases hv : validateType ((dGet strEq rd p.1).getD .null) p.2.type with
    | error e => rw [hv] at h; simp [bind, Except.bind] at h
    | ok v =>
      rw [hv] at h
      simp only [bind, Except.bind, pure, Except.pure, Except.ok.injEq] at h
      exact ⟨v, h.symm⟩
  · simp only [pure, Except.pure, Except.ok.injEq] at h
    exact ⟨.null, h.symm⟩

theorem foldlM_validate_some {rd : List (String × Value)}
    (cols : List (String × ColDef)) :
    ∀ (acc vr : Row), cols.foldlM (validateCol rd) acc = .ok vr →
    ∀ c, ((dGet strEq acc c).isSome ∨ c ∈ dKeys cols) →
    (dGet strEq vr c).isSome := by
  induction cols with
  | nil =>
    intro acc vr h c hc
    simp only [List.foldlM_nil, pure, Except.pure, Except.ok.injEq] at h
    subst h
    rcases hc with hc | hc
    · exact hc
    · simp [dKeys] at hc
  | cons p ps ih =>
    intro acc vr h c hc
    rw [List.foldlM_cons] at h
    cases hv : validateCol rd acc p with
    | error e => rw [hv] at h; simp [bind, Except.bind] at h
    | ok acc' =>
      rw [hv] at h
      simp only [bind, Except.bind] at h
      obtain ⟨x, hx⟩ := validateCol_ok hv
      apply ih acc' vr h c
      rcases hc with hc | hc
      · left
        subst hx
        rw [dGet_dSet_str]
        by_cases hpc : p.1 = c <;> simp [hpc, hc]
      · simp only [dKeys, List.map_cons, List.mem_cons] at hc
        rcases hc with hc | hc
        · left
          subst hx hc
          rw [dGet_dSet_str]
          simp
        · exact Or.inr hc

theorem validateRow_isSome {tbl : Table} {rd : List (String × Value)}
    {vr : Row} (h : validateRow tbl rd = .ok vr) {c : String}
    (hc : c ∈ dKeys tbl.columns) : (dGet strEq vr c).isSome :=
  foldlM_validate_some tbl.columns [] vr h c (Or.inr hc)

theorem rowIdsFrom_renumber (rows : List Row) :
    ∀ i, rowIdsFrom i (renumber i rows) = true := by
  induction rows with
  | nil => intro i; rfl
  | cons r rest ih =>
    intro i
    simp only [renumber, rowIdsFrom, Bool.and_eq_true, beq_iff_eq]
    refine ⟨?_, ih (i + 1)⟩
    show dGet strEq (dSet strEq r "_row_id" (.int i)) "_row_id" = _
    rw [dGet_dSet_str]
    simp

theorem colVal_dSet_ne (r : Row) (k : String) (x : Value) (c : String)
    (h : k ≠ c) : colVal (dSet strEq r k x) c = colVal r c := by
  simp only [colVal, rowGet]
  rw [dGet_dSet_str, if_neg h]

theorem all_renumber_pyEq (c : String) (w : Value) (hc : c ≠ "_row_id")
    (rows : List Row) :
    ∀ i, ((renumber i rows).all fun r2 => !(colVal r2 c).pyEq w) =
      (rows.all fun r2 => !(colVal r2 c).pyEq w) := by
  induction rows with
  | nil => intro i; rfl
  | cons r rest ih =>
    intro i
    simp only [renumber, List.all_cons]
    rw [colVal_dSet_ne r "_row_id" (.int i) c (Ne.symm hc), ih (i + 1)]

theorem noDupCol_renumber (c : String) (hc : c ≠ "_row_id")
    (rows : List Row) :
    ∀ i, noDupCol c (renumber i rows) = noDupCol c rows := by
  induction rows with
  | nil => intro i; rfl
  | cons r rest ih =>
    intro i
    simp only [renumber, noDupCol]
    rw [colVal_dSet_ne r "_row_id" (.int i) c (Ne.symm hc),
      all_renumber_pyEq c (colVal r c) hc rest (i + 1), ih (i + 1)]

theorem noDupTruthy_renumber (c : String) (hc : c ≠ "_row_id")
    (rows : List Row) :
    ∀ i, noDupTruthy c (renumber i rows) = noDupTruthy c rows := by
  induction rows with
  | nil => intro i; rfl
  | cons r rest ih =>
    intro i
    simp only [renumber, noDupTruthy]
    rw [colVal_dSet_ne r "_row_id" (.int i) c (Ne.symm hc),
      all_renumber_pyEq c (colVal r c) hc rest (i + 1), ih (i + 1)]

theorem rebuildGo_rows (rows : List Row) :
    ∀ i idx, (rebuildGo i rows idx).1 = renumber i rows := by
  induction rows with
  | nil => intro i idx; rfl
  | cons r rest ih =>
    intro i idx
    simp only [rebuildGo, renumber]
    rw [ih]

theorem rebuildGo_idx (rows : List Row) :
    ∀ i idx, (rebuildGo i rows idx).2 =
      idx.map (fun p => (p.1, buildIdx p.1 i (renumber i rows) p.2)) := by
  induction rows with
  | nil =>
    intro i idx
    simp [rebuildGo, renumber, buildIdx]
  | cons r rest ih =>
    intro i idx
    simp only [rebuildGo, renumber]
    rw [ih, List.map_map]
    congr 1
    funext p
    simp only [Function.comp_apply]
    by_cases hv : (rowGet (dSet strEq r "_row_id" (Value.int i)) p.1).getD
        Value.null ≠ Value.null
    · rw [if_pos hv]
      simp only [buildIdx, colVal]
      rw [if_pos hv]
    · rw [if_neg hv]
      simp only [buildIdx, colVal]
      rw [if_neg hv]

theorem mem_keys_of_dHas {β : Type} {d : List (String × β)} {k : String}
    (h : dHas strEq d k = true) : k ∈ dKeys d := by
  simp only [dHas, Option.isSome_iff_exists] at h
  obtain ⟨v, hv⟩ := h
  obtain ⟨k0, hmem, hk⟩ := dGet_mem d k v hv
  rw [strEq_eq] at hk
  exact hk ▸ List.mem_map.mpr ⟨(k0, v), hmem, rfl⟩

theorem mem_dKeys_dSet_str {β : Type} (d : List (String × β)) (k : String)
    (v : β) (c : String) :
    c ∈ dKeys (dSet strEq d k v) ↔ (c ∈ dKeys d ∨ c = k) := by
  rw [dKeys_dSet]
  cases h : dHas strEq d k with
  | true =>
    simp only [if_true]
    constructor
    · exact Or.inl
    · rintro (hc | rfl)
      · exact hc
      · exact mem_keys_of_dHas h
  | false => simp

theorem ksfold_val (ks : List String) :
    ∀ (m : TableIndexes) (p : String × IndexMap),
    p ∈ ks.foldl (fun m k => dSet strEq m k []) m →
    (∀ q ∈ m, q.2 = ([] : IndexMap)) → p.2 = [] := by
  induction ks with
  | nil => intro m p hp hm; exact hm p hp
  | cons k ks ih =>
    intro m p hp hm
    rw [List.foldl_cons] at hp
    refine ih _ p hp ?_
    intro q hq
    rcases mem_dSet_str hq with h | h
    · rw [h]
    · exact hm q h

theorem mem_keys_ksfold (ks : List String) :
    ∀ (m : TableIndexes) (c : String),
    (c ∈ dKeys (ks.foldl (fun m k => dSet strEq m k []) m)) ↔
      (c ∈ dKeys m ∨ c ∈ ks) := by
  induction ks with
  | nil => intro m c; simp
  | cons k ks ih =>
    intro m c
    rw [List.foldl_cons, ih, mem_dKeys_dSet_str]
    simp only [List.mem_cons]
    tauto

theorem rebuildInit_val (cols : List (String × ColDef)) :
    ∀ (m : TableIndexes) (p : String × IndexMap),
    p ∈ cols.foldl (fun m q =>
      if q.2.primary_key ∨ q.2.unique then dSet strEq m q.1 [] else m) m →
    (∀ q ∈ m, q.2 = ([] : IndexMap)) → p.2 = [] := by
  induction cols with
  | nil => intro m p hp hm; exact hm p hp
  | cons q cols ih =>
    intro m p hp hm
    rw [List.foldl_cons] at hp
    by_cases hq : q.2.primary_key ∨ q.2.unique
    · rw [if_pos hq] at hp
      refine ih _ p hp ?_
      intro r hr
      rcases mem_dSet_str hr with h | h
      · rw [h]
      · exact hm r h
    · rw [if_neg hq] at hp
      exact ih _ p hp hm

theorem mem_keys_rebuildInit (cols : List (String × ColDef)) :
    ∀ (m : TableIndexes) (c : String),
    (c ∈ dKeys (cols.foldl (fun m q =>
      if q.2.primary_key ∨ q.2.unique then dSet strEq m q.1 [] else m) m)) ↔
      (c ∈ dKeys m ∨
        c ∈ dKeys (cols.filter (fun p => p.2.primary_key || p.2.unique))) := by
  induction cols with
  | nil => intro m c; simp [dKeys]
  | cons q cols ih =>
    intro m c
    rw [List.foldl_cons]
    by_cases hq : q.2.primary_key ∨ q.2.unique
    · have hfq : (q.2.primary_key || q.2.unique) = true := by
        rcases hq with h | h <;> simp [h]
      rw [if_pos hq, ih, mem_dKeys_dSet_str]
      simp only [List.filter_cons, hfq, if_true, dKeys, List.map_cons,
        List.mem_cons]
      tauto
    · have hfq : (q.2.primary_key || q.2.unique) = false := by
        cases h1 : q.2.primary_key
        · cases h2 : q.2.unique
          · rfl
          · exact absurd (Or.inr h2) hq
        · exact absurd (Or.inl h1) hq
      rw [if_neg hq, ih]
      simp [List.filter_cons, hfq]

theorem mem_flaggedPks {cols : List (String × ColDef)} {c : String}
    (h : c ∈ flaggedPks cols) :
    ∃ d, (c, d) ∈ cols ∧ d.primary_key = true := by
  simp only [flaggedPks, List.mem_map, List.mem_filter] at h
  obtain ⟨p, ⟨hmem, hflag⟩, hfst⟩ := h
  refine ⟨p.2, ?_, hflag⟩
  rw [← hfst]
  exact hmem

theorem flaggedPks_mem {cols : List (String × ColDef)} {c : String}
    {d : ColDef} (hm : (c, d) ∈ cols) (hf : d.primary_key = true) :
    c ∈ flaggedPks cols := by
  simp only [flaggedPks, List.mem_map]
  exact ⟨(c, d), List.mem_filter.mpr ⟨hm, hf⟩, rfl⟩

theorem mem_flaggedUks {cols : List (String × ColDef)} {c : String}
    (h : c ∈ flaggedUks cols) :
    ∃ d, (c, d) ∈ cols ∧ d.unique = true := by
  simp only [flaggedUks, List.mem_map, List.mem_filter] at h
  obtain ⟨p, ⟨hmem, hflag⟩, hfst⟩ := h
  refine ⟨p.2, ?_, hflag⟩
  rw [← hfst]
  exact hmem

theorem flaggedUks_mem {cols : List (String × ColDef)} {c : String}
    {d : ColDef} (hm : (c, d) ∈ cols) (hf : d.unique = true) :
    c ∈ flaggedUks cols := by
  simp only [flaggedUks, List.mem_map]
  exact ⟨(c, d), List.mem_filter.mpr ⟨hm, hf⟩, rfl⟩

theorem dKeys_map_fst_preserving {β : Type} (d : List (String × β))
    (f : String × β → String × β) (hf : ∀ p, (f p).1 = p.1) :
    dKeys (d.map f) = dKeys d := by
  simp only [dKeys, List.map_map]
  exact List.map_congr_left (fun p _ => hf p)

theorem deleteLoop_sublist : ∀ (idxs : List Nat) (rows : List Row)
    (tIdx : TableIndexes),
    List.Sublist (deleteLoop idxs rows tIdx).1 rows := by
  intro idxs
  induction idxs with
  | nil => intro rows tIdx; exact List.Sublist.refl rows
  | cons i rest ih =>
    intro rows tIdx
    simp only [deleteLoop]
    exact (ih _ _).trans (List.eraseIdx_sublist rows i)

theorem invB_saveTables (s : EngineState) : invB (saveTables s) = invB s :=
  rfl

theorem invB_lookup {es : EngineState} {tn : String} {tbl : Table}
    (hinv : invB es = true) (ht : dGet strEq es.mem.tables tn = some tbl) :
    tableInvB tbl = true ∧
    ∃ tIdx, dGet strEq es.mem.indexes tn = some tIdx ∧
      tableIdxInvB tbl tIdx = true := by
  simp only [invB, Bool.and_eq_true] at hinv
  obtain ⟨hnd, hall⟩ := hinv
  obtain ⟨k0, hmem, hk⟩ := dGet_mem es.mem.tables tn tbl ht
  rw [strEq_eq] at hk
  subst hk
  rw [List.all_eq_true] at hall
  have h := hall (k0, tbl) hmem
  simp only [Bool.and_eq_true] at h
  refine ⟨h.1, ?_⟩
  have h2 := h.2
  rcases hq : dGet strEq es.mem.indexes k0 with _ | tIdx
  · rw [hq] at h2
    exact absurd h2 (by simp)
  · rw [hq] at h2
    exact ⟨tIdx, rfl, h2⟩

theorem invB_set_table {es : EngineState} {tn : String} {tbl : Table}
    {tIdx : TableIndexes} {dk : DB}
    (hinv : invB es = true) (htbl : tableInvB tbl = true)
    (hidx : tableIdxInvB tbl tIdx = true) :
    invB ⟨⟨dSet strEq es.mem.tables tn tbl,
           dSet strEq es.mem.indexes tn tIdx⟩, dk⟩ = true := by
  simp only [invB, Bool.and_eq_true] at hinv ⊢
  obtain ⟨hnd, hall⟩ := hinv
  have hndP : (dKeys es.mem.tables).Nodup := by
    simpa [nodupKeysB] using hnd
  constructor
  · have : (dKeys (dSet strEq es.mem.tables tn tbl)).Nodup :=
      nodup_dKeys_dSet strEq_refl _ tn tbl hndP
    simpa [nodupKeysB] using this
  · rw [List.all_eq_true] at hall ⊢
    intro p hp
    rcases mem_dSet_str_nodup hndP hp with rfl | ⟨hmem, hne⟩
    · simp only [Bool.and_eq_true]
      refine ⟨htbl, ?_⟩
      rw [dGet_dSet_str]
      simp [hidx]
    · have hold := hall p hmem
      rw [dGet_dSet_str, if_neg (Ne.symm hne)]
      exact hold

theorem idx_exact_of_inv {tbl : Table} {tIdx : TableIndexes} {c : String}
    {m : IndexMap} (hinv : tableIdxInvB tbl tIdx = true)
    (hget : dGet strEq tIdx c = some m) :
    m = buildIdx c 0 tbl.rows [] := by
  simp only [tableIdxInvB, Bool.and_eq_true] at hinv
  obtain ⟨k0, hmem, hk⟩ := dGet_mem tIdx c m hget
  rw [strEq_eq] at hk
  subst hk
  have h := (List.all_eq_true.mp hinv.2) (k0, m) hmem
  simpa using h

theorem except_bind_ok {ε α β : Type} {e : Except ε α} {f : α → Except ε β}
    {b : β} (h : e >>= f = .ok b) : ∃ a, e = .ok a ∧ f a = .ok b := by
  cases e with
  | error err => simp [bind, Except.bind] at h
  | ok a => exact ⟨a, rfl, by simpa [bind, Except.bind] using h⟩

theorem except_forM_ok {ε α : Type} {l : List α} {g : α → Except ε Unit}
    (h : l.forM g = .ok ()) : ∀ x ∈ l, g x = .ok () := by
  induction l with
  | nil => intro x hx; simp at hx
  | cons a l ih =>
    intro x hx
    have h2 : (g a >>= fun _ => l.forM g) = Except.ok () := h
    obtain ⟨⟨⟩, ha, hrest⟩ := except_bind_ok h2
    rcases List.mem_cons.mp hx with rfl | hx
    · exact ha
    · exact ih hrest x hx

theorem dictGetE_ok {β : Type} {d : List (String × β)} {k : String} {v : β}
    (h : dictGetE d k = .ok v) : dGet strEq d k = some v := by
  unfold dictGetE at h
  cases hq : dGet strEq d k with
  | none =>
    rw [hq] at h
    simp [throw, throwThe, MonadExceptOf.throw] at h
  | some w =>
    rw [hq] at h
    simpa [pure, Except.pure] using h

theorem insertChecks_pk {es : EngineState} {tn : String} {tbl : Table}
    {vr : Row} {pk : String}
    (hch : insertChecks es tn tbl vr = .ok ())
    (hpk : tbl.primary_key = some pk) (hname : pk ≠ "") :
    ∃ pkv tIdx colIdx,
      dGet strEq vr pk = some pkv ∧
      dGet strEq es.mem.indexes tn = some tIdx ∧
      dGet strEq tIdx pk = some colIdx ∧
      dHas Value.pyEq colIdx pkv = false := by
  unfold insertChecks at hch
  rw [hpk] at hch
  dsimp only at hch
  rw [if_neg hname] at hch
  obtain ⟨u, h1, _⟩ := except_bind_ok hch
  obtain ⟨pkv, hpkv, h2⟩ := except_bind_ok h1
  obtain ⟨tIdx, hti, h3⟩ := except_bind_ok h2
  obtain ⟨colIdx, hci, h4⟩ := except_bind_ok h3
  by_cases hhas : dHas Value.pyEq colIdx pkv = true
  · rw [if_pos hhas] at h4
    simp [throw, throwThe, MonadExceptOf.throw] at h4
  · exact ⟨pkv, tIdx, colIdx, dictGetE_ok hpkv, dictGetE_ok hti,
      dictGetE_ok hci, by simpa using hhas⟩

theorem insertChecks_uk {es : EngineState} {tn : String} {tbl : Table}
    {vr : Row} {uk : String}
    (hch : insertChecks es tn tbl vr = .ok ())
    (huk : uk ∈ tbl.unique_keys) (hne : tbl.primary_key ≠ some uk) :
    ∃ ukv tIdx colIdx,
      dGet strEq vr uk = some ukv ∧
      dGet strEq es.mem.indexes tn = some tIdx ∧
      dGet strEq tIdx uk = some colIdx ∧
      (ukv.pyTruthy = true → dHas Value.pyEq colIdx ukv = false) := by
  unfold insertChecks at hch
  obtain ⟨u, _, h2⟩ := except_bind_ok hch
  have hg := except_forM_ok h2 uk huk
  simp only [] at hg
  rw [if_pos hne] at hg
  obtain ⟨ukv, hukv, h3⟩ := except_bind_ok hg
  obtain ⟨tIdx, hti, h4⟩ := except_bind_ok h3
  obtain ⟨colIdx, hci, h5⟩ := except_bind_ok h4
  by_cases hc : ukv.pyTruthy ∧ dHas Value.pyEq colIdx ukv
  · rw [if_pos hc] at h5
    simp [throw, throwThe, MonadExceptOf.throw] at h5
  · refine ⟨ukv, tIdx, colIdx, dictGetE_ok hukv, dictGetE_ok hti,
      dictGetE_ok hci, ?_⟩
    intro htr
    by_cases hh : dHas Value.pyEq colIdx ukv = true
    · exact absurd ⟨htr, hh⟩ hc
    · simpa using hh

theorem createTable_ok {es es' : EngineState} {tn : String}
    {cols : List (String × ColDef)} {r : Unit}
    (hok : createTable es tn cols = (.ok r, es')) :
    dHas strEq es.mem.tables tn = false ∧
    ¬ (flaggedPks cols).length > 1 ∧
    es' = saveTables { es with mem :=
      ⟨dSet strEq es.mem.tables tn
         ⟨cols, [], (flaggedPks cols).head?, flaggedUks cols⟩,
       dSet strEq es.mem.indexes tn
         ((flaggedPks cols ++ flaggedUks cols).foldl
           (fun m k => dSet strEq m k []) [])⟩ } := by
  unfold createTable at hok
  by_cases h1 : dHas strEq es.mem.tables tn
  · rw [if_pos h1] at hok
    simp at hok
  · rw [if_neg h1] at hok
    dsimp only at hok
    by_cases h2 :
        ((cols.filter (fun p => p.2.primary_key)).map Prod.fst).length > 1
    · rw [if_pos h2] at hok
      simp at hok
    · rw [if_neg h2] at hok
      refine ⟨by simpa using h1, by simpa [flaggedPks] using h2, ?_⟩
      exact (congrArg Prod.snd hok).symm

theorem insertRow_ok {es es' : EngineState} {tn : String}
    {rd : List (String × Value)} {n : Nat}
    (hok : insertRow es tn rd = (.ok n, es')) :
    ∃ tbl vr tIdx,
      dGet strEq es.mem.tables tn = some tbl ∧
      validateRow tbl rd = .ok vr ∧
      insertChecks es tn tbl vr = .ok () ∧
      dGet strEq es.mem.indexes tn = some tIdx ∧
      n = tbl.rows.length ∧
      es' = saveTables { es with mem :=
        ⟨dSet strEq es.mem.tables tn
           { tbl with rows := tbl.rows ++
               [dSet strEq vr "_row_id" (.int tbl.rows.length)] },
         dSet strEq es.mem.indexes tn
           (tIdx.map (fun p =>
             if colVal (dSet strEq vr "_row_id" (.int tbl.rows.length)) p.1
                 ≠ Value.null then
               (p.1, dSet Value.pyEq p.2
                 (colVal (dSet strEq vr "_row_id" (.int tbl.rows.length)) p.1)
                 tbl.rows.length)
             else p))⟩ } := by
  unfold insertRow at hok
  cases ht : dGet strEq es.mem.tables tn with
  | none => rw [ht] at hok; simp at hok
  | some tbl =>
    rw [ht] at hok
    dsimp only at hok
    cases hv : validateRow tbl rd with
    | error e => rw [hv] at hok; simp at hok
    | ok vr =>
      rw [hv] at hok
      dsimp only at hok
      cases hch : insertChecks es tn tbl vr with
      | error e => rw [hch] at hok; simp at hok
      | ok u =>
        rw [hch] at hok
        dsimp only at hok
        cases hidx : dGet strEq es.mem.indexes tn with
        | none => rw [hidx] at hok; simp at hok
        | some tIdx =>
          rw [hidx] at hok
          dsimp only at hok
          simp only [Prod.mk.injEq] at hok
          refine ⟨tbl, vr, tIdx, rfl, hv, by rw [hch], rfl, ?_, ?_⟩
          · have h := hok.1
            simp only [pure, Except.pure, Except.ok.injEq] at h
            exact h.symm
          · exact hok.2.symm

theorem deleteRows_ok {es es' : EngineState} {tn : String} {wc : WhereClause}
    {n : Nat} (hinv : invB es = true)
    (hok : deleteRows es tn wc = (.ok n, es')) :
    ∃ tbl tIdx toDel,
      dGet strEq es.mem.tables tn = some tbl ∧
      dGet strEq es.mem.indexes tn = some tIdx ∧
      collectMatches wc 0 tbl.rows = .ok toDel ∧
      es' = saveTables { es with mem :=
        ⟨dSet strEq es.mem.tables tn
          { tbl with rows := (rebuildIndexes { tbl with
              rows := (deleteLoop toDel.reverse tbl.rows tIdx).1 }).1 },
         dSet strEq es.mem.indexes tn
          (rebuildIndexes { tbl with
              rows := (deleteLoop toDel.reverse tbl.rows tIdx).1 }).2⟩ } := by
  unfold deleteRows at hok
  cases ht : dGet strEq es.mem.tables tn with
  | none => rw [ht] at hok; simp at hok
  | some tbl =>
    rw [ht] at hok
    dsimp only at hok
    cases hcm : collectMatches wc 0 tbl.rows with
    | error e => rw [hcm] at hok; simp at hok
    | ok toDel =>
      rw [hcm] at hok
      dsimp only at hok
      obtain ⟨_, tIdx, hidx, _⟩ := invB_lookup hinv ht
      rw [hidx] at hok
      dsimp only at hok
      simp only [Prod.mk.injEq] at hok
      exact ⟨tbl, tIdx, toDel, rfl, hidx, hcm, hok.2.symm⟩

theorem createTable_inv {es es' : EngineState} {tn : String}
    {cols : List (String × ColDef)} {r : Unit}
    (hinv : invB es = true) (hnd : nodupKeysB cols = true)
    (hok : createTable es tn cols = (.ok r, es')) :
    invB es' = true := by
  obtain ⟨h1, h2, hes⟩ := createTable_ok hok
  subst hes
  rw [invB_saveTables]
  have hndc : (dKeys cols).Nodup := by simpa [nodupKeysB] using hnd
  apply invB_set_table hinv
  · simp only [tableInvB, Bool.and_eq_true]
    refine ⟨⟨⟨⟨⟨⟨?_, ?_⟩, ?_⟩, ?_⟩, ?_⟩, ?_⟩, ?_⟩
    · simp
    · simp
    · simp only [decide_eq_true_eq]
      omega
    · exact hnd
    · rfl
    · cases (flaggedPks cols).head? <;> simp [noDupCol]
    · rw [List.all_eq_true]
      intro c _
      simp [noDupTruthy]
  · simp only [tableIdxInvB, Bool.and_eq_true]
    refine ⟨⟨?_, ?_⟩, ?_⟩
    · rw [List.all_eq_true]
      intro c hc
      rw [mem_keys_ksfold] at hc
      rcases hc with hc | hc
      · simp [dKeys] at hc
      · rw [List.mem_append] at hc
        rcases hc with hc | hc
        · obtain ⟨d, hmem, hflag⟩ := mem_flaggedPks hc
          have hg := dGet_of_mem_nodup hndc hmem
          simp [idxColOkB, hg, hflag]
        · obtain ⟨d, hmem, hflag⟩ := mem_flaggedUks hc
          have hg := dGet_of_mem_nodup hndc hmem
          simp [idxColOkB, hg, hflag]
    · rw [List.all_eq_true]
      intro p hp
      rw [List.mem_filter] at hp
      obtain ⟨hmem, hflag⟩ := hp
      apply dHas_of_mem_keys strEq_refl
      rw [mem_keys_ksfold]
      right
      rw [List.mem_append]
      rw [Bool.or_eq_true] at hflag
      rcases hflag with hf | hf
      · exact Or.inl (flaggedPks_mem hmem hf)
      · exact Or.inr (flaggedUks_mem hmem hf)
    · rw [List.all_eq_true]
      intro p hp
      have hz := ksfold_val _ _ p hp (by intro q hq; simp at hq)
      simp [hz, buildIdx]

theorem insertRow_inv {es es' : EngineState} {tn : String}
    {rd : List (String × Value)} {n : Nat}
    (hinv : invB es = true) (hok : insertRow es tn rd = (.ok n, es')) :
    invB es' = true := by
  obtain ⟨tbl, vr, tIdx, ht, hv, hch, hidx, hn, hes⟩ := insertRow_ok hok
  subst hes
  rw [invB_saveTables]
  obtain ⟨htbl, tIdx0, hidx0, hidxinv⟩ := invB_lookup hinv ht
  obtain rfl : tIdx0 = tIdx := Option.some.inj (hidx0.symm.trans hidx)
  have hI123 := hidxinv
  simp only [tableIdxInvB, Bool.and_eq_true] at hI123
  obtain ⟨⟨hI1, hI2⟩, hI3⟩ := hI123
  simp only [tableInvB, Bool.and_eq_true] at htbl
  obtain ⟨⟨⟨⟨⟨⟨hA, hB⟩, hC⟩, hD⟩, hE⟩, hF⟩, hG⟩ := htbl
  set vrF := dSet strEq vr "_row_id" (Value.int tbl.rows.length) with hvrF
  have hrowF : rowGet vrF "_row_id" = some (Value.int tbl.rows.length) := by
    rw [hvrF]
    show dGet strEq _ _ = _
    rw [dGet_dSet_str]
    simp
  have hRid : rowIdsFrom 0 (tbl.rows ++ [vrF]) = true := by
    apply rowIdsFrom_append tbl.rows vrF 0 hE
    rw [hrowF]
    simp
  have hfresh : ∀ (c : String) (w : Value),
      dGet strEq tIdx0 c = some (buildIdx c 0 tbl.rows []) →
      dHas Value.pyEq (buildIdx c 0 tbl.rows []) w = false →
      (w = Value.null ∨ ∀ r2 ∈ tbl.rows, (colVal r2 c).pyEq w = false) := by
    intro c w _ hhas
    by_cases hwn : w = Value.null
    · exact Or.inl hwn
    · right
      intro r2 hr2
      have hnotany : ¬ (tbl.rows.any
          (fun r => colVal r c ≠ Value.null && (colVal r c).pyEq w)) = true := by
        rw [dHas_buildIdx] at hhas
        intro hcon
        rw [hcon] at hhas
        simp at hhas
      rw [List.any_eq_true] at hnotany
      push_neg at hnotany
      have h2 := hnotany r2 hr2
      by_cases hnull : colVal r2 c = Value.null
      · rw [hnull]
        cases hq : (Value.null).pyEq w
        · rfl
        · rw [pyEq_symm, pyEq_null_iff] at hq
          exact absurd hq hwn
      · cases hq : (colVal r2 c).pyEq w
        · rfl
        · exfalso
          apply h2
          simp [hnull, hq]
  have hpkNoDup : ∀ pk, tbl.primary_key = some pk → pk ≠ "" →
      noDupCol pk (tbl.rows ++ [vrF]) = true := by
    intro pk hpk hname
    by_cases hpkid : pk = "_row_id"
    · subst hpkid
      exact noDupCol_of_rowIds _ 0 hRid
    · obtain ⟨pkv, tIdx1, colIdx, hpkv, hti1, hci, hhas⟩ :=
        insertChecks_pk hch hpk hname
      obtain rfl : tIdx1 = tIdx0 := Option.some.inj (hti1.symm.trans hidx0)
      have hciB := idx_exact_of_inv hidxinv hci
      subst hciB
      have hcv : colVal vrF pk = pkv := by
        rw [hvrF, colVal_dSet_ne _ _ _ _ (Ne.symm hpkid)]
        simp [colVal, rowGet, hpkv]
      refine noDupCol_append pk tbl.rows vrF ?_ ?_
      · have hF2 : ((pk == "" : Bool) || noDupCol pk tbl.rows) = true := by
          rw [hpk] at hF
          exact hF
        rw [Bool.or_eq_true] at hF2
        rcases hF2 with h | h
        · rw [beq_iff_eq] at h
          exact absurd h hname
        · exact h
      · rw [hcv]
        exact hfresh pk pkv hci hhas
  have hukNoDup : ∀ uk ∈ tbl.unique_keys,
      ¬ (tbl.primary_key = some uk ∧ uk = "") →
      noDupTruthy uk (tbl.rows ++ [vrF]) = true := by
    intro uk huk hex
    by_cases hukid : uk = "_row_id"
    · subst hukid
      exact noDupTruthy_of_noDupCol _ _ (noDupCol_of_rowIds _ 0 hRid)
    · by_cases hpkuk : tbl.primary_key = some uk
      · have hname : uk ≠ "" := fun h => hex ⟨hpkuk, h⟩
        exact noDupTruthy_of_noDupCol _ _ (hpkNoDup uk hpkuk hname)
      · obtain ⟨ukv, tIdx1, colIdx, hukv, hti1, hci, himp⟩ :=
          insertChecks_uk hch huk hpkuk
        obtain rfl : tIdx1 = tIdx0 := Option.some.inj (hti1.symm.trans hidx0)
        have hciB := idx_exact_of_inv hidxinv hci
        subst hciB
        have hcv : colVal vrF uk = ukv := by
          rw [hvrF, colVal_dSet_ne _ _ _ _ (Ne.symm hukid)]
          simp [colVal, rowGet, hukv]
        refine noDupTruthy_append uk tbl.rows vrF ?_ ?_
        · have hGuk : ((tbl.primary_key == some uk && uk == "") ||
              noDupTruthy uk tbl.rows) = true :=
            (List.all_eq_true.mp hG) uk huk
          rw [Bool.or_eq_true] at hGuk
          rcases hGuk with h | h
          · rw [Bool.and_eq_true, beq_iff_eq, beq_iff_eq] at h
            exact absurd h.1 hpkuk
          · exact h
        · rw [hcv]
          by_cases htr : ukv.pyTruthy = true
          · rcases hfresh uk ukv hci (himp htr) with hnl | hall
            · subst hnl
              simp [Value.pyTruthy] at htr
            · exact Or.inr hall
          · exact Or.inl (by simpa using htr)
  apply invB_set_table hinv
  · simp only [tableInvB, Bool.and_eq_true]
    refine ⟨⟨⟨⟨⟨⟨hA, hB⟩, hC⟩, hD⟩, hRid⟩, ?_⟩, ?_⟩
    · cases hpk : tbl.primary_key with
      | none => rfl
      | some pk =>
        dsimp only
        by_cases hname : pk = ""
        · simp [hname]
        · have h := hpkNoDup pk hpk hname
          simp [h]
    · rw [List.all_eq_true]
      intro uk huk
      show ((tbl.primary_key == some uk && uk == "") ||
        noDupTruthy uk (tbl.rows ++ [vrF])) = true
      by_cases hex : tbl.primary_key = some uk ∧ uk = ""
      · simp [hex.1, hex.2]
      · have h := hukNoDup uk huk hex
        simp [h]
  · have hfst : ∀ p : String × IndexMap,
        (if colVal vrF p.1 ≠ Value.null then
          (p.1, dSet Value.pyEq p.2 (colVal vrF p.1) tbl.rows.length)
         else p).1 = p.1 := by
      intro p
      by_cases h : colVal vrF p.1 ≠ Value.null
      · rw [if_pos h]
      · rw [if_neg h]
    have hcols : idxColOkB { tbl with rows := tbl.rows ++ [vrF] } =
        idxColOkB tbl := rfl
    simp only [tableIdxInvB, Bool.and_eq_true]
    refine ⟨⟨?_, ?_⟩, ?_⟩
    · rw [dKeys_map_fst_preserving _ _ hfst, hcols]
      exact hI1
    · rw [List.all_eq_true]
      intro p hp
      rw [dHas_map_fst_preserving _ _ hfst]
      exact (List.all_eq_true.mp hI2) p hp
    · rw [List.all_eq_true]
      intro q hq
      rw [List.mem_map] at hq
      obtain ⟨p, hp, hqe⟩ := hq
      subst hqe
      have hold : p.2 = buildIdx p.1 0 tbl.rows [] := by
        have h := (List.all_eq_true.mp hI3) p hp
        simpa using h
      by_cases hc : colVal vrF p.1 ≠ Value.null
      · rw [if_pos hc]
        dsimp only
        rw [buildIdx_append p.1 tbl.rows vrF 0 [], if_pos hc, hold,
          Nat.zero_add]
        simp
      · rw [if_neg hc]
        rw [buildIdx_append p.1 tbl.rows vrF 0 [], if_neg hc, hold]
        simp

theorem deleteRows_inv {es es' : EngineState} {tn : String}
    {wc : WhereClause} {n : Nat}
    (hinv : invB es = true) (hok : deleteRows es tn wc = (.ok n, es')) :
    invB es' = true := by
  obtain ⟨tbl, tIdx, toDel, ht, hidx, hcm, hes⟩ := deleteRows_ok hinv hok
  subst hes
  rw [invB_saveTables]
  obtain ⟨htbl, tIdx0, hidx0, hidxinv⟩ := invB_lookup hinv ht
  obtain rfl : tIdx0 = tIdx := Option.some.inj (hidx0.symm.trans hidx)
  simp only [tableInvB, Bool.and_eq_true] at htbl
  obtain ⟨⟨⟨⟨⟨⟨hA, hB⟩, hC⟩, hD⟩, hE⟩, hF⟩, hG⟩ := htbl
  set rows1 := (deleteLoop toDel.reverse tbl.rows tIdx0).1 with hrows1
  have hsub : List.Sublist rows1 tbl.rows := deleteLoop_sublist _ _ _
  have hr1 : (rebuildIndexes { tbl with rows := rows1 }).1 =
      renumber 0 rows1 := by
    unfold rebuildIndexes
    dsimp only
    rw [rebuildGo_rows]
  have hr2 : (rebuildIndexes { tbl with rows := rows1 }).2 =
      (tbl.columns.foldl (fun m q =>
        if q.2.primary_key ∨ q.2.unique then dSet strEq m q.1 [] else m)
        []).map (fun p => (p.1, buildIdx p.1 0 (renumber 0 rows1) p.2)) := by
    unfold rebuildIndexes
    dsimp only
    rw [rebuildGo_idx]
  rw [hr1, hr2]
  apply invB_set_table hinv
  · simp only [tableInvB, Bool.and_eq_true]
    refine ⟨⟨⟨⟨⟨⟨hA, hB⟩, hC⟩, hD⟩, ?_⟩, ?_⟩, ?_⟩
    · exact rowIdsFrom_renumber rows1 0
    · show (match tbl.primary_key with
        | some pk => pk == "" || noDupCol pk (renumber 0 rows1)
        | none => true) = true
      cases hpk : tbl.primary_key with
      | none => rfl
      | some pk =>
        dsimp only
        by_cases hname : pk = ""
        · simp [hname]
        · rw [Bool.or_eq_true]
          right
          by_cases hpkid : pk = "_row_id"
          · subst hpkid
            exact noDupCol_of_rowIds _ 0 (rowIdsFrom_renumber rows1 0)
          · rw [noDupCol_renumber pk hpkid rows1 0]
            apply noDupCol_sublist pk hsub
            have hF2 : ((pk == "" : Bool) || noDupCol pk tbl.rows) = true := by
              rw [hpk] at hF
              exact hF
            rw [Bool.or_eq_true] at hF2
            rcases hF2 with h | h
            · rw [beq_iff_eq] at h
              exact absurd h hname
            · exact h
    · rw [List.all_eq_true]
      intro uk huk
      show ((tbl.primary_key == some uk && uk == "") ||
        noDupTruthy uk (renumber 0 rows1)) = true
      have hGuk : ((tbl.primary_key == some uk && uk == "") ||
          noDupTruthy uk tbl.rows) = true := (List.all_eq_true.mp hG) uk huk
      rw [Bool.or_eq_true] at hGuk ⊢
      rcases hGuk with h | h
      · exact Or.inl h
      · right
        by_cases hukid : uk = "_row_id"
        · subst hukid
          exact noDupTruthy_of_noDupCol _ _
            (noDupCol_of_rowIds _ 0 (rowIdsFrom_renumber rows1 0))
        · rw [noDupTruthy_renumber uk hukid rows1 0]
          exact noDupTruthy_sublist uk hsub h
  · have hfst : ∀ p : String × IndexMap,
        ((p.1, buildIdx p.1 0 (renumber 0 rows1) p.2) :
          String × IndexMap).1 = p.1 := fun p => rfl
    have hcols : idxColOkB { tbl with rows := renumber 0 rows1 } =
        idxColOkB tbl := rfl
    simp only [tableIdxInvB, Bool.and_eq_true]
    refine ⟨⟨?_, ?_⟩, ?_⟩
    · rw [dKeys_map_fst_preserving _ _ hfst, hcols, List.all_eq_true]
      intro c hc
      rw [mem_keys_rebuildInit] at hc
      rcases hc with hc | hc
      · simp [dKeys] at hc
      · rw [dKeys, List.mem_map] at hc
        obtain ⟨p, hp, hpc⟩ := hc
        rw [List.mem_filter] at hp
        subst hpc
        have hg := dGet_of_mem_nodup (by simpa [nodupKeysB] using hD)
          (show (p.1, p.2) ∈ tbl.columns from hp.1)
        simp [idxColOkB, hg, hp.2]
    · rw [List.all_eq_true]
      intro p hp
      apply dHas_of_mem_keys strEq_refl
      rw [dKeys_map_fst_preserving _ _ hfst, mem_keys_rebuildInit]
      right
      rw [dKeys, List.mem_map]
      exact ⟨p, hp, rfl⟩
    · rw [List.all_eq_true]
      intro q hq
      rw [List.mem_map] at hq
      obtain ⟨p, hp, hqe⟩ := hq
      subst hqe
      dsimp only
      have hz : p.2 = [] :=
        rebuildInit_val tbl.columns [] p hp (by intro a ha; simp at ha)
      rw [hz]
      simp

/-- Every state reachable by successful `create_table`, `insert_row`
and `delete_rows` calls satisfies the engine invariant. -/
theorem reachable_inv {es : EngineState} (h : Reachable es) :
    invB es = true := by
  induction h with
  | init => decide
  | create hre hnd hok ih => exact createTable_inv ih hnd hok
  | insert hre hok ih => exact insertRow_inv ih hok
  | delete hre hok ih => exact deleteRows_inv ih hok

/-! ## Claim C5 — executor boundary: total, flagged, shaped -/

theorem execCreateTable_shape (es : EngineState) (tn : String)
    (cols : List (String × ColDef)) :
    ((execCreateTable es tn cols).1.success = false →
      (execCreateTable es tn cols).1.error.isSome) ∧
    ((execCreateTable es tn cols).1.success = true →
      (execCreateTable es tn cols).1.message.isSome) := by
  rcases hc : createTable es tn cols with ⟨res, es2⟩
  cases res <;> simp [execCreateTable, hc, failRes]

theorem execInsert_shape (es : EngineState) (tn : String)
    (ic : Option (List String)) (vs : List Value) :
    ((execInsert es tn ic vs).1.success = false →
      (execInsert es tn ic vs).1.error.isSome) ∧
    ((execInsert es tn ic vs).1.success = true →
      (execInsert es tn ic vs).1.message.isSome ∧
      (execInsert es tn ic vs).1.row_id.isSome) := by
  cases hs : getTableSchema es tn with
  | error e => simp [execInsert, hs, failRes]
  | ok tbl =>
    cases ic with
    | none =>
      by_cases hlen : vs.length ≠ (dKeys tbl.columns).length
      · simp [execInsert, hs, hlen, failRes, throw, throwThe,
          MonadExceptOf.throw]
      · rcases hi : insertRow es tn (zipToDict (dKeys tbl.columns) vs)
          with ⟨res, es2⟩
        cases res <;>
          simp [execInsert, hs, hlen, hi, failRes, pure, Except.pure]
    | some spec =>
      by_cases hlen : spec.length ≠ vs.length
      · simp [execInsert, hs, hlen, failRes, throw, throwThe,
          MonadExceptOf.throw]
      · rcases hi : insertRow es tn (zipToDict spec vs) with ⟨res, es2⟩
        cases res <;>
          simp [execInsert, hs, hlen, hi, failRes, pure, Except.pure]

theorem execSelect_shape (es : EngineState) (tn : String)
    (cols : List String) (wc : Option WhereClause) :
    ((execSelect es tn cols wc).1.success = false →
      (execSelect es tn cols wc).1.error.isSome) ∧
    ((execSelect es tn cols wc).1.success = true →
      (execSelect es tn cols wc).1.rows.isSome ∧
      (execSelect es tn cols wc).1.count.isSome) := by
  cases hs : selectRows es tn wc with
  | error e => simp [execSelect, hs, failRes]
  | ok rows =>
    by_cases hstar : cols = ["*"] <;> simp [execSelect, hs, hstar]

theorem execSelectJoin_shape (es : EngineState) (t1 t2 l r : String)
    (cols : List String) (wc : Option WhereClause) :
    ((execSelectJoin es t1 t2 l r cols wc).1.success = false →
      (execSelectJoin es t1 t2 l r cols wc).1.error.isSome) ∧
    ((execSelectJoin es t1 t2 l r cols wc).1.success = true →
      (execSelectJoin es t1 t2 l r cols wc).1.rows.isSome ∧
      (execSelectJoin es t1 t2 l r cols wc).1.count.isSome) := by
  cases h1 : selectRows es t1 none with
  | error e => simp [execSelectJoin, h1, failRes]
  | ok rows1 =>
    cases h2 : selectRows es t2 none with
    | error e => simp [execSelectJoin, h1, h2, failRes]
    | ok rows2 =>
      cases hf : joinFilter wc (joinCross t1 t2 l r rows1 rows2) with
      | error e => simp [execSelectJoin, h1, h2, hf, failRes]
      | ok joined2 =>
        by_cases hstar : cols = ["*"] <;>
          simp [execSelectJoin, h1, h2, hf, hstar]

theorem execUpdate_shape (es : EngineState) (tn : String)
    (ups : List (String × Value)) (wc : Option WhereClause) :
    ((execUpdate es tn ups wc).1.success = false →
      (execUpdate es tn ups wc).1.error.isSome) ∧
    ((execUpdate es tn ups wc).1.success = true →
      (execUpdate es tn ups wc).1.message.isSome ∧
      (execUpdate es tn ups wc).1.updated_count.isSome) := by
  cases wc with
  | none => simp [execUpdate, failRes]
  | some w =>
    by_cases hw : w = []
    · simp [execUpdate, hw, failRes]
    · rcases hu : updateRows es tn ups w with ⟨res, es2⟩
      cases res <;> simp [execUpdate, hw, hu, failRes]

theorem execDelete_shape (es : EngineState) (tn : String)
    (wc : WhereClause) :
    ((execDelete es tn wc).1.success = false →
      (execDelete es tn wc).1.error.isSome) ∧
    ((execDelete es tn wc).1.success = true →
      (execDelete es tn wc).1.message.isSome ∧
      (execDelete es tn wc).1.deleted_count.isSome) := by
  rcases hd : deleteRows es tn wc with ⟨res, es2⟩
  cases res <;> simp [execDelete, hd, failRes]

theorem execDescribe_shape (es : EngineState) (tn : String) :
    ((execDescribe es tn).1.success = false →
      (execDescribe es tn).1.error.isSome) ∧
    ((execDescribe es tn).1.success = true →
      (execDescribe es tn).1.table.isSome ∧
      (execDescribe es tn).1.columns.isSome ∧
      (execDescribe es tn).1.row_count.isSome) := by
  cases hs : getTableSchema es tn with
  | error e => simp [execDescribe, hs, failRes]
  | ok tbl => simp [execDescribe, hs]

/-- C5: for every input string, `execute` returns a record with a
success flag; when the flag is false an error string is present, and
when it is true the statement parsed and the payload carries the fields
the plan variant fixes. -/
theorem claim_C5 (es : EngineState) (q : String) :
    ((execute es q).1.success = false → (execute es q).1.error.isSome) ∧
    ((execute es q).1.success = true →
      ∃ p, parse q = .ok p ∧ resultShape p (execute es q).1) := by
  cases hp : parse q with
  | error e => simp [execute, hp, failRes]
  | ok p =>
    cases p with
    | createTable t cols =>
      have hex : execute es q = execCreateTable es t cols := by
        unfold execute; rw [hp]
      rw [hex]
      have h := execCreateTable_shape es t cols
      exact ⟨h.1, fun ht => ⟨_, rfl, h.2 ht⟩⟩
    | insert t ic vs =>
      have hex : execute es q = execInsert es t ic vs := by
        unfold execute; rw [hp]
      rw [hex]
      have h := execInsert_shape es t ic vs
      exact ⟨h.1, fun ht => ⟨_, rfl, h.2 ht⟩⟩
    | select t cols wc =>
      have hex : execute es q = execSelect es t cols wc := by
        unfold execute; rw [hp]
      rw [hex]
      have h := execSelect_shape es t cols wc
      exact ⟨h.1, fun ht => ⟨_, rfl, h.2 ht⟩⟩
    | selectJoin t1 t2 l r cols wc =>
      have hex : execute es q = execSelectJoin es t1 t2 l r cols wc := by
        unfold execute; rw [hp]
      rw [hex]
      have h := execSelectJoin_shape es t1 t2 l r cols wc
      exact ⟨h.1, fun ht => ⟨_, rfl, h.2 ht⟩⟩
    | update t ups wc =>
      have hex : execute es q = execUpdate es t ups wc := by
        unfold execute; rw [hp]
      rw [hex]
      have h := execUpdate_shape es t ups wc
      exact ⟨h.1, fun ht => ⟨_, rfl, h.2 ht⟩⟩
    | delete t wc =>
      have hex : execute es q = execDelete es t wc := by
        unfold execute; rw [hp]
      rw [hex]
      have h := execDelete_shape es t wc
      exact ⟨h.1, fun ht => ⟨_, rfl, h.2 ht⟩⟩
    | showTables =>
      have hex : execute es q = execShowTables es := by
        unfold execute; rw [hp]
      rw [hex]
      exact ⟨by simp [execShowTables], fun ht => ⟨_, rfl, by
        simp [resultShape, execShowTables]⟩⟩
    | describe t =>
      have hex : execute es q = execDescribe es t := by
        unfold execute; rw [hp]
      rw [hex]
      have h := execDescribe_shape es t
      exact ⟨h.1, fun ht => ⟨_, rfl, h.2 ht⟩⟩

/-- C5 witness: the shape guarantee at concrete statements, one
succeeding and one failing. -/
theorem claim_C5_witness :
    (∃ p, parse "SHOW TABLES" = .ok p ∧
      resultShape p (execute esCat "SHOW TABLES").1) ∧
    (execute esCat "garbage statement").1.error.isSome := by
  constructor
  · exact (claim_C5 esCat "SHOW TABLES").2 (by decide)
  · exact (claim_C5 esCat "garbage statement").1 (by decide)

/-! ## Claims C3, C4 and C6 — uniqueness, index exactness, duplicate PK -/

/-- The two-call history behind `esR` (create `t`, insert `{a: 1, b: 2}`)
is reachable. -/
theorem reachable_esR : Reachable esR :=
  Reachable.insert
    (Reachable.create Reachable.init (by decide)
      (show createTable EngineState.init "t" colsR =
        (.ok (), (createTable EngineState.init "t" colsR).2) from rfl))
    (show insertRow (createTable EngineState.init "t" colsR).2 "t"
        [("a", Value.int 1), ("b", Value.int 2)] = (.ok 0, esR) from rfl)

/-- C3 counterexample: on table `t` (`id INT PRIMARY KEY, code INT
UNIQUE`) holding `(1, 0)`, `insert_row` accepts a second row with the
same `code = 0` — the unique check is guarded by `uk_value and ...`, so
it is skipped for falsy values — and a successful mutation leaves two
rows with an equal non-Null value in a UNIQUE column. -/
theorem claim_C3_counterexample :
    (insertRow esUniq "t" [("id", Value.int 2), ("code", Value.int 0)]).1 =
      .ok 1 ∧
    (dGet strEq (insertRow esUniq "t"
        [("id", Value.int 2), ("code", Value.int 0)]).2.mem.tables "t").map
      (fun tbl => decide ("code" ∈ tbl.unique_keys)) = some true ∧
    (dGet strEq (insertRow esUniq "t"
        [("id", Value.int 2), ("code", Value.int 0)]).2.mem.tables "t").map
      (fun tbl => noDupCol "code" tbl.rows) = some false := by
  decide

/-- C3 (amended): in every state reachable from a fresh engine by
successful `create_table`, `insert_row` and `delete_rows` calls, no two
rows of any table hold `pyEq`-equal non-Null values in a primary-key
column whose name is truthy (nonempty — `if table['primary_key']:`
skips the check for a falsy name), and no two rows hold `pyEq`-equal
**truthy** values in any UNIQUE column other than an empty-named PK
column (the unique insert check is skipped for falsy values such as
`0`, `''` and `FALSE`, and successful `update_rows` calls can break
uniqueness outright, so the claim as stated fails). -/
theorem claim_C3 (es : EngineState) (tn : String) (tbl : Table)
    (hre : Reachable es)
    (ht : dGet strEq es.mem.tables tn = some tbl) :
    (∀ pk, tbl.primary_key = some pk → pk ≠ "" →
      noDupCol pk tbl.rows = true) ∧
    (∀ uk, uk ∈ tbl.unique_keys →
      ¬ (tbl.primary_key = some uk ∧ uk = "") →
      noDupTruthy uk tbl.rows = true) := by
  obtain ⟨htbl, _⟩ := invB_lookup (reachable_inv hre) ht
  simp only [tableInvB, Bool.and_eq_true] at htbl
  obtain ⟨⟨⟨⟨⟨⟨_, _⟩, _⟩, _⟩, _⟩, hF⟩, hG⟩ := htbl
  constructor
  · intro pk hpk hname
    have hF2 : ((pk == "" : Bool) || noDupCol pk tbl.rows) = true := by
      rw [hpk] at hF
      exact hF
    rw [Bool.or_eq_true] at hF2
    rcases hF2 with h | h
    · rw [beq_iff_eq] at h
      exact absurd h hname
    · exact h
  · intro uk huk hex
    have hGuk : ((tbl.primary_key == some uk && uk == "") ||
        noDupTruthy uk tbl.rows) = true := (List.all_eq_true.mp hG) uk huk
    rw [Bool.or_eq_true] at hGuk
    rcases hGuk with h | h
    · rw [Bool.and_eq_true, beq_iff_eq, beq_iff_eq] at h
      exact absurd h hex
    · exact h

/-- C3 witness: the amended claim instantiated on the concrete
reachable state `esR` and its table `t`. -/
theorem claim_C3_witness :
    (∀ pk, tblR.primary_key = some pk → pk ≠ "" →
      noDupCol pk tblR.rows = true) ∧
    (∀ uk, uk ∈ tblR.unique_keys →
      ¬ (tblR.primary_key = some uk ∧ uk = "") →
      noDupTruthy uk tblR.rows = true) :=
  claim_C3 esR "t" tblR reachable_esR (by decide)

/-- C4 counterexample: on the one-row table `u` (`id INT PRIMARY KEY`),
the successful mutation `update_rows(u, {id: NULL}, {})` deletes the old
index key and re-keys the row under `Null`, so the `id` index afterwards
contains a `Null` key — it is not the map of non-Null column values the
claim describes (equivalently, `tableIdxInvB` fails for it). -/
theorem claim_C4_counterexample :
    esUUpd.1 = .ok 1 ∧
    dGet strEq esUUpd.2.mem.indexes "u" = some [("id", [(Value.null, 0)])] ∧
    (dGet strEq esUUpd.2.mem.tables "u").map
      (fun tbl => tableIdxInvB tbl [("id", [(Value.null, 0)])]) =
      some false := by
  decide

/-- C4 (amended): in every state reachable from a fresh engine by
successful `create_table`, `insert_row` and `delete_rows` calls, every
table's index dict indexes exactly its PK/UNIQUE-flagged columns and
each per-column index equals the last-occurrence map of the rows' non-
Null values (`buildIdx`); the iff form of the claim additionally fails
whenever a falsy UNIQUE duplicate makes the map keep only the last
ordinal, and `update_rows` can break even the last-occurrence form. -/
theorem claim_C4 (es : EngineState) (tn : String) (tbl : Table)
    (hre : Reachable es)
    (ht : dGet strEq es.mem.tables tn = some tbl) :
    ∃ tIdx, dGet strEq es.mem.indexes tn = some tIdx ∧
      tableIdxInvB tbl tIdx = true := by
  obtain ⟨_, tIdx, hidx, hti⟩ := invB_lookup (reachable_inv hre) ht
  exact ⟨tIdx, hidx, hti⟩

/-- C4 witness: the amended claim instantiated on the concrete
reachable state `esR` and its table `t`. -/
theorem claim_C4_witness :
    ∃ tIdx, dGet strEq esR.mem.indexes "t" = some tIdx ∧
      tableIdxInvB tblR tIdx = true :=
  claim_C4 esR "t" tblR reachable_esR (by decide)

/-- C6 counterexample: on table `p` whose INT PRIMARY KEY column is
named `""` and holds the value `1`, inserting `1` again SUCCEEDS —
`if table['primary_key']:` is falsy for the empty name, so the
duplicate check is skipped — leaving two rows with an equal non-Null
primary-key value, contradicting the claimed constraint error. -/
theorem claim_C6_counterexample :
    (insertRow esEmptyPk "p" [("", Value.int 1)]).1 = .ok 1 ∧
    (dGet strEq (insertRow esEmptyPk "p"
        [("", Value.int 1)]).2.mem.tables "p").map
      (fun tbl => tbl.primary_key) = some (some "") ∧
    (dGet strEq (insertRow esEmptyPk "p"
        [("", Value.int 1)]).2.mem.tables "p").map
      (fun tbl => noDupCol "" tbl.rows) = some false := by
  decide

/-- C6 (amended): inserting a row whose (non-Null) primary-key value is
already held, up to Python `==`, by some stored row fails with the
`Primary key violation: <v> already exists` error, and the engine state
— rows, indexes and persisted snapshot — is returned unchanged,
PROVIDED the primary-key column name is truthy (nonempty): for a PK
column named `""` the source skips the check and accepts the duplicate
(see the counterexample). -/
theorem claim_C6 (es : EngineState) (tn : String) (tbl : Table)
    (pk : String) (pkv : Value) (rd : List (String × Value)) (vr : Row)
    (hinv : invB es = true)
    (ht : dGet strEq es.mem.tables tn = some tbl)
    (hpk : tbl.primary_key = some pk)
    (hname : pk ≠ "")
    (hv : validateRow tbl rd = .ok vr)
    (hpkv : dGet strEq vr pk = some pkv)
    (hnn : pkv ≠ Value.null)
    (hdup : ∃ r ∈ tbl.rows, (colVal r pk).pyEq pkv = true) :
    insertRow es tn rd =
      (.error s!"Primary key violation: {pkv.pyStr} already exists", es) := by
  obtain ⟨htbl, tIdx, hidx, hidxinv⟩ := invB_lookup hinv ht
  have hpkflag : pk ∈ flaggedPks tbl.columns := by
    have hA : tbl.primary_key = (flaggedPks tbl.columns).head? := by
      simp only [tableInvB, Bool.and_eq_true] at htbl
      have h := htbl.1.1.1.1.1.1
      rwa [beq_iff_eq] at h
    rw [hpk] at hA
    cases hfl : flaggedPks tbl.columns with
    | nil => rw [hfl] at hA; simp at hA
    | cons a l =>
      rw [hfl] at hA
      simp only [List.head?_cons, Option.some.injEq] at hA
      simp [hA]
  obtain ⟨d, hmem, hdflag⟩ := mem_flaggedPks hpkflag
  have hI123 := hidxinv
  simp only [tableIdxInvB, Bool.and_eq_true] at hI123
  obtain ⟨⟨hI1, hI2⟩, hI3⟩ := hI123
  have hhasIdx : dHas strEq tIdx pk = true := by
    have hmf : (pk, d) ∈ tbl.columns.filter
        (fun p => p.2.primary_key || p.2.unique) :=
      List.mem_filter.mpr ⟨hmem, by simp [hdflag]⟩
    have h := (List.all_eq_true.mp hI2) (pk, d) hmf
    simpa using h
  obtain ⟨colIdx, hci⟩ : ∃ colIdx, dGet strEq tIdx pk = some colIdx := by
    simpa [dHas, Option.isSome_iff_exists] using hhasIdx
  have hciB := idx_exact_of_inv hidxinv hci
  subst hciB
  have hhas : dHas Value.pyEq (buildIdx pk 0 tbl.rows []) pkv = true := by
    rw [dHas_buildIdx, Bool.or_eq_true]
    right
    rw [List.any_eq_true]
    obtain ⟨r, hr, hpe⟩ := hdup
    refine ⟨r, hr, ?_⟩
    have hrnn : ¬ colVal r pk = Value.null := by
      intro h0
      rw [h0, pyEq_symm, pyEq_null_iff] at hpe
      exact absurd hpe hnn
    simp [hrnn, hpe]
  have h1 : dictGetE vr pk = Except.ok pkv := by
    simp [dictGetE, hpkv, pure, Except.pure]
  have h2 : dictGetE es.mem.indexes tn = Except.ok tIdx := by
    simp [dictGetE, hidx, pure, Except.pure]
  have h3 : dictGetE tIdx pk = Except.ok (buildIdx pk 0 tbl.rows []) := by
    simp [dictGetE, hci, pure, Except.pure]
  have hch : insertChecks es tn tbl vr =
      .error s!"Primary key violation: {pkv.pyStr} already exists" := by
    unfold insertChecks
    rw [hpk]
    dsimp only
    rw [if_neg hname]
    simp only [h1, h2, h3, bind, Except.bind, hhas, if_true,
      throw, throwThe, MonadExceptOf.throw]
  unfold insertRow
  rw [ht]
  dsimp only
  rw [hv]
  dsimp only
  rw [hch]

/-- C6 witness: the duplicate-PK insert on the one-row `categories`
table fails with the exact message and returns the state unchanged. -/
theorem claim_C6_witness :
    insertRow esCat "categories"
        [("id", Value.int 1), ("name", Value.text "Other")] =
      (.error "Primary key violation: 1 already exists", esCat) :=
  claim_C6 esCat "categories" tblCat "id" (Value.int 1)
    [("id", Value.int 1), ("name", Value.text "Other")]
    [("id", Value.int 1), ("name", Value.text "Other")]
    (by decide) (by decide) (by decide) (by decide) (by decide)
    (by decide) (by decide) (by decide)

end Rdbms